import Mathlib

/- Verification of the Skyboss_4hop arbitrage scanner (src/Sky_O2O.py):
   the Whirlpool account decoder, the vault-balance decoder, the
   Decimal-based price normalizer (context precision 18) and the pairwise
   arbitrage engine.  Byte buffers are modelled as `List ℕ`; Python
   `Decimal` values are modelled by their exact rational value, with the
   context rounding made explicit; the Python `float` divisions in the
   balance decoder are modelled by binary64 round-to-nearest-even
   (`roundFloat64`), and the pool dict's display-only `liquidity` field
   by the exact quotient. -/

namespace SkyO2O

/-! ### Byte-level utilities

`int.from_bytes(_, "little")` is `fromLE`; the slice `data[a:b]` is
`slice data a b`. -/

/-- Little-endian byte list to natural number, as `int.from_bytes(_, "little")`. -/
def fromLE : List ℕ → ℕ
  | [] => 0
  | b :: bs => b + 256 * fromLE bs

/-- The `k` little-endian bytes of `n` (used to build synthetic buffers). -/
def toLE : ℕ → ℕ → List ℕ
  | 0, _ => []
  | k + 1, n => n % 256 :: toLE k (n / 256)

/-- Python slice `data[a:b]`. -/
def slice (data : List ℕ) (a b : ℕ) : List ℕ := (data.drop a).take (b - a)

/-- `int.from_bytes(_, "little", signed=True)` applied to a 4-byte slice:
reinterpret the unsigned little-endian value as a signed 32-bit integer. -/
def toSigned32 (u : ℕ) : ℤ := if u < 2 ^ 31 then (u : ℤ) else (u : ℤ) - 2 ^ 32

/-! ### Python `decimal` model at context precision 18

`getcontext().prec = 18` (src/Sky_O2O.py line 14): every arithmetic
operation on `Decimal` values returns the exact result rounded to 18
significant decimal digits with the default rounding mode
`ROUND_HALF_EVEN`.  A `Decimal` is modelled by its exact rational value;
`round18` is the context rounding applied by each operation. -/

/-- Round a rational to the nearest integer, ties to even
(Python `ROUND_HALF_EVEN`). -/
def roundHalfEvenQ (x : ℚ) : ℤ :=
  if Int.fract x < 1 / 2 then ⌊x⌋
  else if 1 / 2 < Int.fract x then ⌊x⌋ + 1
  else if 2 ∣ ⌊x⌋ then ⌊x⌋ else ⌊x⌋ + 1

/-- Rounding of a positive rational to 18 significant decimal digits:
scale into `[10^17, 10^18)`, round to an integer half-even, scale back. -/
def round18pos (q : ℚ) : ℚ :=
  (roundHalfEvenQ (q * 10 ^ (17 - Int.log 10 q)) : ℚ) * 10 ^ (Int.log 10 q - 17)

/-- Value produced by a prec-18 `Decimal` context operation whose exact
result is `q`: `q` rounded to 18 significant digits, half-even. -/
def round18 (q : ℚ) : ℚ :=
  if q = 0 then 0 else if q < 0 then -round18pos (-q) else round18pos q

/-- Rounding of a positive rational to a 53-bit binary significand:
scale into `[2^52, 2^53)`, round to an integer half-even, scale back. -/
def roundFloat64pos (q : ℚ) : ℚ :=
  (roundHalfEvenQ (q * 2 ^ (52 - Int.log 2 q)) : ℚ) * 2 ^ (Int.log 2 q - 52)

/-- Result of a Python `float` (IEEE-754 binary64) operation whose exact
value is `q`: `q` rounded to the nearest 53-bit-significand binary value,
ties to even.  Faithful on the normal range, which covers every value the
program's display divisions produce (u64 amounts over `10^6` or `10^9`
never overflow or go subnormal). -/
def roundFloat64 (q : ℚ) : ℚ :=
  if q = 0 then 0 else if q < 0 then -roundFloat64pos (-q) else roundFloat64pos q

/-- `MIN_PROFIT_THRESHOLD = Decimal("0.00001")` (src/Sky_O2O.py line 65). -/
def MIN_PROFIT_THRESHOLD : ℚ := 1 / 100000

/-- `OPTIMAL_PROFIT_THRESHOLD = Decimal("0.0001")` (src/Sky_O2O.py line 66). -/
def OPTIMAL_PROFIT_THRESHOLD : ℚ := 1 / 10000

/-! ### Price normalizer -/

/-- `sqrt_price_to_price` (src/Sky_O2O.py lines 96-100).  Each `Decimal`
operation (`/`, `** 2`, `*`, `/`) rounds its exact result to 18
significant digits, hence the four `round18` applications. -/
def sqrt_price_to_price (sqrt_price_x64 : ℕ) : ℚ :=
  let sqrt_price : ℚ := round18 ((sqrt_price_x64 : ℚ) / 2 ^ 64)
  let price : ℚ := round18 (sqrt_price ^ 2)
  round18 (round18 (price * 10 ^ 9) / 10 ^ 6)

/-! ### Whirlpool account decoder -/

/-- The dict returned by `decode_whirlpool` (src/Sky_O2O.py lines 131-143).
Vault and tick-array identifiers are kept as their raw 32-byte slices
(the Python code renders them as base58 strings, a bijective encoding).
`liquidity` is the float display value `liquidity_raw / 2**64 if
liquidity_raw > 0 else 0`, modelled as an exact rational. -/
structure PoolState where
  price : ℚ
  sqrt_price_x64 : ℕ
  liquidity_raw : ℕ
  liquidity : ℚ
  vault_a : List ℕ
  vault_b : List ℕ
  tick_current_index : ℤ
  tick_spacing : ℕ
  tick_array_0 : List ℕ
  tick_array_1 : List ℕ
  tick_array_2 : List ℕ
  deriving DecidableEq

/-- The two failures of `decode_whirlpool`: `fetchFailed` is the
`RuntimeError("Failed to fetch Whirlpool account")` for a missing
account, `malformedAccount` the `RuntimeError("Not a Whirlpool account")`
raised when the buffer length is not 653 (the spec's `MalformedAccount`). -/
inductive DecodeError where
  | fetchFailed
  | malformedAccount
  deriving DecidableEq

/-- Buffer-level part of `decode_whirlpool` (src/Sky_O2O.py lines 108-143):
the account fetch is external; given the fetched bytes, a length other
than 653 fails with `malformedAccount`, otherwise the fields are read at
the fixed little-endian offsets. -/
def decode_whirlpool (data : List ℕ) : Except DecodeError PoolState :=
  if data.length ≠ 653 then .error .malformedAccount
  else .ok
    { price := sqrt_price_to_price (fromLE (slice data 65 81))
      sqrt_price_x64 := fromLE (slice data 65 81)
      liquidity_raw := fromLE (slice data 85 101)
      liquidity := if 0 < fromLE (slice data 85 101) then
          (fromLE (slice data 85 101) : ℚ) / 2 ^ 64 else 0
      vault_a := slice data 104 136
      vault_b := slice data 136 168
      tick_current_index := toSigned32 (fromLE (slice data 81 85))
      tick_spacing := fromLE (slice data 101 103)
      tick_array_0 := slice data 168 200
      tick_array_1 := slice data 200 232
      tick_array_2 := slice data 232 264 }

/-- Synthetic 653-byte Whirlpool buffer with the given field values
injected at the offsets of the layout table (65-81 sqrt price, 81-85
signed tick, 85-101 liquidity, 101-103 tick spacing, 104-136 vault A,
136-168 vault B, 168-264 the three tick arrays); `pre` covers bytes
0-65, `gap` byte 103, `post` bytes 264-653. -/
def encodeWhirlpool (pre : List ℕ) (sqrtP : ℕ) (tick : ℤ) (liq ts : ℕ)
    (vA vB t0 t1 t2 gap post : List ℕ) : List ℕ :=
  pre ++ toLE 16 sqrtP ++ toLE 4 (tick % 2 ^ 32).toNat ++ toLE 16 liq ++
    toLE 2 ts ++ gap ++ vA ++ vB ++ t0 ++ t1 ++ t2 ++ post

/-! ### Vault balance decoder -/

/-- Outcome of the external `client.get_account_info` call inside
`get_vault_balance`: an exception while fetching or decoding, a missing
account (`resp.value` is `None`), or raw account data plus the native
lamports balance. -/
inductive FetchOutcome where
  | fetchError
  | notFound
  | found (data : List ℕ) (lamports : ℕ)
  deriving DecidableEq

/-- The dict `{"raw": _, "display": _, "token": _}` returned by
`get_vault_balance`.  `display` is a Python float division result,
modelled as the binary64 rounding of the exact quotient. -/
structure VaultBalance where
  raw : ℕ
  display : ℚ
  token : String
  deriving DecidableEq

/-- `get_vault_balance` (src/Sky_O2O.py lines 71-94) given the outcome of
the account fetch.  The surrounding `try/except` turns any exception into
the zero balance; a missing account yields the zero balance; in USDC
(token-holding) mode a buffer of at least 72 bytes yields the
little-endian u64 at bytes 64-72, a shorter buffer the zero balance; in
SOL (native) mode the lamports balance is used directly.  The display
divisions `amount / 1_000_000` and `lamports / 1_000_000_000` are Python
float divisions, hence the `roundFloat64`. -/
def get_vault_balance (fetch : FetchOutcome) (is_usdc : Bool) : VaultBalance :=
  match fetch with
  | .fetchError => ⟨0, 0, if is_usdc then "USDC" else "SOL"⟩
  | .notFound => ⟨0, 0, if is_usdc then "USDC" else "SOL"⟩
  | .found data lamports =>
    if is_usdc then
      if 72 ≤ data.length then
        ⟨fromLE (slice data 64 72),
          roundFloat64 ((fromLE (slice data 64 72) : ℚ) / 1000000), "USDC"⟩
      else ⟨0, 0, "USDC"⟩
    else ⟨lamports, roundFloat64 ((lamports : ℚ) / 1000000000), "SOL"⟩

/-! ### Arbitrage engine -/

/-- The fields of a `pools_data` entry read by the engine
(src/Sky_O2O.py lines 150-153): display name, spot price, fee rate. -/
structure PoolQuote where
  name : String
  price : ℚ
  fee_rate : ℚ
  deriving DecidableEq

/-- The dict returned by `calculate_arbitrage_simple`.  The zero-price
early return (line 156) carries only `profitable = False`,
`profit_pct = Decimal("0")` and `uses_sdk`; the full branch carries all
keys.  The two shapes are the two constructors. -/
inductive ArbResult where
  | undefinedQuote
  | computed (profitable optimal : Bool) (profit_pct : ℚ) (direction : String)
      (buy_price sell_price total_fees : ℚ)
  deriving DecidableEq

/-- Key `"profitable"`, present in both result shapes. -/
def ArbResult.profitable : ArbResult → Bool
  | .undefinedQuote => false
  | .computed p _ _ _ _ _ _ => p

/-- Key `"profit_pct"`, present in both result shapes
(`Decimal("0")` in the zero-price shape). -/
def ArbResult.profit_pct : ArbResult → ℚ
  | .undefinedQuote => 0
  | .computed _ _ pp _ _ _ _ => pp

/-- Key `"optimal"`, absent from the zero-price shape. -/
def ArbResult.optimal? : ArbResult → Option Bool
  | .undefinedQuote => none
  | .computed _ o _ _ _ _ _ => some o

/-- Key `"direction"`, absent from the zero-price shape. -/
def ArbResult.direction? : ArbResult → Option String
  | .undefinedQuote => none
  | .computed _ _ _ d _ _ _ => some d

/-- Key `"buy_price"`, absent from the zero-price shape. -/
def ArbResult.buyPrice? : ArbResult → Option ℚ
  | .undefinedQuote => none
  | .computed _ _ _ _ bp _ _ => some bp

/-- Key `"sell_price"`, absent from the zero-price shape. -/
def ArbResult.sellPrice? : ArbResult → Option ℚ
  | .undefinedQuote => none
  | .computed _ _ _ _ _ sp _ => some sp

/-- `cost = buy_price * (Decimal("1") + buy_fee)` (src line 171): the
addition and the multiplication each round to 18 significant digits. -/
def costOf (buy_price buy_fee : ℚ) : ℚ := round18 (buy_price * round18 (1 + buy_fee))

/-- `revenue = sell_price * (Decimal("1") - sell_fee)` (src line 172). -/
def revenueOf (sell_price sell_fee : ℚ) : ℚ := round18 (sell_price * round18 (1 - sell_fee))

/-- `profit_pct = (revenue - cost) / cost` (src line 173): the subtraction
and the division each round to 18 significant digits. -/
def profitPctOf (buy_price sell_price buy_fee sell_fee : ℚ) : ℚ :=
  round18 (round18 (revenueOf sell_price sell_fee - costOf buy_price buy_fee) /
    costOf buy_price buy_fee)

/-- The dict built at src/Sky_O2O.py lines 175-184 once buy/sell have been
oriented: threshold flags compare with `>=`, `total_fees = buy_fee +
sell_fee` rounds like every `Decimal` addition. -/
def mkComputed (buy_price sell_price buy_fee sell_fee : ℚ) (direction : String) : ArbResult :=
  .computed (decide (MIN_PROFIT_THRESHOLD ≤ profitPctOf buy_price sell_price buy_fee sell_fee))
    (decide (OPTIMAL_PROFIT_THRESHOLD ≤ profitPctOf buy_price sell_price buy_fee sell_fee))
    (profitPctOf buy_price sell_price buy_fee sell_fee) direction buy_price sell_price
    (round18 (buy_fee + sell_fee))

/-- `calculate_arbitrage_simple` (src/Sky_O2O.py lines 148-184): zero
price on either side short-circuits; otherwise the strictly lower-priced
pool is the buy side (`pool1` wins ties onto the sell side, the else
branch). -/
def calculate_arbitrage_simple (pool1 pool2 : PoolQuote) : ArbResult :=
  if pool1.price = 0 ∨ pool2.price = 0 then .undefinedQuote
  else if pool1.price < pool2.price then
    mkComputed pool1.price pool2.price pool1.fee_rate pool2.fee_rate
      (pool1.name ++ " -> " ++ pool2.name)
  else
    mkComputed pool2.price pool1.price pool2.fee_rate pool1.fee_rate
      (pool2.name ++ " -> " ++ pool1.name)

/-- An element appended to `opportunities` (src/Sky_O2O.py lines 199-203):
the two pools in input order plus the arbitrage dict. -/
structure Opportunity where
  pool1 : PoolQuote
  pool2 : PoolQuote
  arbitrage : ArbResult
  deriving DecidableEq

/-- The ordered pairs visited by the double loop `for i in range(n): for j
in range(i+1, n)`: each element paired with every later element, in
input order. -/
def pairsList : List PoolQuote → List (PoolQuote × PoolQuote)
  | [] => []
  | p :: rest => rest.map (fun q => (p, q)) ++ pairsList rest

/-- `find_arbitrage_opportunities` (src/Sky_O2O.py lines 186-205): visit
the pairs in loop order, keep exactly those whose arbitrage dict has
`profitable` set. -/
def find_arbitrage_opportunities (pools_data : List PoolQuote) : List Opportunity :=
  (pairsList pools_data).filterMap (fun pq =>
    if (calculate_arbitrage_simple pq.1 pq.2).profitable then
      some ⟨pq.1, pq.2, calculate_arbitrage_simple pq.1 pq.2⟩ else none)

/-- The index pairs `(i, j)` with `i < j < n` in the loop order of
`find_arbitrage_opportunities`: `i` ascending, then `j` ascending. -/
def lexPairs : ℕ → List (ℕ × ℕ)
  | 0 => []
  | n + 1 => (List.range' 1 n).map (fun j => (0, j)) ++
      (lexPairs n).map (fun p => (p.1 + 1, p.2 + 1))

/-- Placeholder quote used only to state index-based lookups. -/
def dfltQuote : PoolQuote := ⟨"", 0, 0⟩

/-- Lexicographic order on index pairs: `i` ascending, then `j` ascending. -/
def lexLt (a b : ℕ × ℕ) : Prop := a.1 < b.1 ∨ (a.1 = b.1 ∧ a.2 < b.2)

/-! ### Half-even rounding facts -/

theorem roundHalfEvenQ_ge_floor (x : ℚ) : ⌊x⌋ ≤ roundHalfEvenQ x := by
  unfold roundHalfEvenQ; split_ifs <;> omega

theorem roundHalfEvenQ_le_floor_add_one (x : ℚ) : roundHalfEvenQ x ≤ ⌊x⌋ + 1 := by
  unfold roundHalfEvenQ; split_ifs <;> omega

theorem roundHalfEvenQ_intCast (n : ℤ) : roundHalfEvenQ (n : ℚ) = n := by
  unfold roundHalfEvenQ
  rw [Int.fract_intCast, Int.floor_intCast]
  norm_num

theorem roundHalfEvenQ_mono {x y : ℚ} (h : x ≤ y) :
    roundHalfEvenQ x ≤ roundHalfEvenQ y := by
  have hf : ⌊x⌋ ≤ ⌊y⌋ := Int.floor_mono h
  rcases eq_or_lt_of_le hf with heq | hlt
  · have h3 : Int.fract x ≤ Int.fract y := by
      simp only [Int.fract]
      rw [heq]
      linarith
    unfold roundHalfEvenQ
    rw [heq]
    split_ifs <;> first | omega | (exfalso; linarith)
  · calc roundHalfEvenQ x ≤ ⌊x⌋ + 1 := roundHalfEvenQ_le_floor_add_one x
      _ ≤ ⌊y⌋ := by omega
      _ ≤ roundHalfEvenQ y := roundHalfEvenQ_ge_floor y

/-! ### Facts about `round18` -/

theorem log10_lb {q : ℚ} (hq : 0 < q) : (10 : ℚ) ^ Int.log 10 q ≤ q := by
  have h := Int.zpow_log_le_self (b := 10) (R := ℚ) (by norm_num) hq
  simpa using h

theorem log10_ub (q : ℚ) : q < (10 : ℚ) ^ (Int.log 10 q + 1) := by
  have h := Int.lt_zpow_succ_log_self (b := 10) (R := ℚ) (by norm_num) q
  simpa using h

theorem ten_zpow_pos (z : ℤ) : (0 : ℚ) < 10 ^ z := zpow_pos (by norm_num) z

theorem ten_zpow_mul (a b : ℤ) : (10 : ℚ) ^ a * 10 ^ b = 10 ^ (a + b) :=
  (zpow_add₀ (by norm_num : (10 : ℚ) ≠ 0) a b).symm

theorem round18pos_lb {q : ℚ} (hq : 0 < q) :
    (10 : ℚ) ^ Int.log 10 q ≤ round18pos q := by
  unfold round18pos
  have hxlb : (10 : ℚ) ^ (17 : ℤ) ≤ q * 10 ^ (17 - Int.log 10 q) := by
    calc (10 : ℚ) ^ (17 : ℤ) = 10 ^ Int.log 10 q * 10 ^ (17 - Int.log 10 q) := by
          rw [ten_zpow_mul]; ring_nf
      _ ≤ q * 10 ^ (17 - Int.log 10 q) :=
          mul_le_mul_of_nonneg_right (log10_lb hq) (le_of_lt (ten_zpow_pos _))
  have hfl : (10 ^ 17 : ℤ) ≤ ⌊q * 10 ^ ((17 : ℤ) - Int.log 10 q)⌋ := by
    rw [Int.le_floor]
    calc ((10 ^ 17 : ℤ) : ℚ) = (10 : ℚ) ^ (17 : ℤ) := by norm_num
      _ ≤ _ := hxlb
  have hrnd : (10 ^ 17 : ℤ) ≤ roundHalfEvenQ (q * 10 ^ ((17 : ℤ) - Int.log 10 q)) :=
    le_trans hfl (roundHalfEvenQ_ge_floor _)
  calc (10 : ℚ) ^ Int.log 10 q = (10 : ℚ) ^ (17 : ℤ) * 10 ^ (Int.log 10 q - 17) := by
        rw [ten_zpow_mul]; ring_nf
    _ ≤ (roundHalfEvenQ (q * 10 ^ ((17 : ℤ) - Int.log 10 q)) : ℚ) *
        10 ^ (Int.log 10 q - 17) := by
        apply mul_le_mul_of_nonneg_right _ (le_of_lt (ten_zpow_pos _))
        calc (10 : ℚ) ^ (17 : ℤ) = ((10 ^ 17 : ℤ) : ℚ) := by norm_num
          _ ≤ _ := by exact_mod_cast hrnd

theorem round18pos_ub {q : ℚ} (_hq : 0 < q) :
    round18pos q ≤ (10 : ℚ) ^ (Int.log 10 q + 1) := by
  unfold round18pos
  have hxub : q * 10 ^ (17 - Int.log 10 q) < (10 : ℚ) ^ (18 : ℤ) := by
    calc q * 10 ^ (17 - Int.log 10 q)
        < (10 : ℚ) ^ (Int.log 10 q + 1) * 10 ^ (17 - Int.log 10 q) := by
          apply mul_lt_mul_of_pos_right (log10_ub q) (ten_zpow_pos _)
      _ = (10 : ℚ) ^ (18 : ℤ) := by rw [ten_zpow_mul]; ring_nf
  have hfl : ⌊q * 10 ^ ((17 : ℤ) - Int.log 10 q)⌋ < (10 ^ 18 : ℤ) := by
    rw [Int.floor_lt]
    calc q * 10 ^ ((17 : ℤ) - Int.log 10 q) < (10 : ℚ) ^ (18 : ℤ) := hxub
      _ = ((10 ^ 18 : ℤ) : ℚ) := by norm_num
  have hrnd : roundHalfEvenQ (q * 10 ^ ((17 : ℤ) - Int.log 10 q)) ≤ (10 ^ 18 : ℤ) :=
    le_trans (roundHalfEvenQ_le_floor_add_one _) (by omega)
  calc (roundHalfEvenQ (q * 10 ^ ((17 : ℤ) - Int.log 10 q)) : ℚ) *
      10 ^ (Int.log 10 q - 17)
      ≤ (10 : ℚ) ^ (18 : ℤ) * 10 ^ (Int.log 10 q - 17) := by
        apply mul_le_mul_of_nonneg_right _ (le_of_lt (ten_zpow_pos _))
        calc (roundHalfEvenQ (q * 10 ^ ((17 : ℤ) - Int.log 10 q)) : ℚ)
            ≤ ((10 ^ 18 : ℤ) : ℚ) := by exact_mod_cast hrnd
          _ = (10 : ℚ) ^ (18 : ℤ) := by norm_num
    _ = (10 : ℚ) ^ (Int.log 10 q + 1) := by rw [ten_zpow_mul]; ring_nf

theorem round18pos_pos {q : ℚ} (hq : 0 < q) : 0 < round18pos q :=
  lt_of_lt_of_le (ten_zpow_pos _) (round18pos_lb hq)

theorem round18pos_mono {a b : ℚ} (ha : 0 < a) (hab : a ≤ b) :
    round18pos a ≤ round18pos b := by
  have hb : 0 < b := lt_of_lt_of_le ha hab
  have hle : Int.log 10 a ≤ Int.log 10 b := Int.log_mono_right ha hab
  rcases eq_or_lt_of_le hle with heq | hlt
  · unfold round18pos
    rw [heq]
    have hx : a * 10 ^ ((17 : ℤ) - Int.log 10 b) ≤ b * 10 ^ ((17 : ℤ) - Int.log 10 b) :=
      mul_le_mul_of_nonneg_right hab (le_of_lt (ten_zpow_pos _))
    have hr := roundHalfEvenQ_mono hx
    exact mul_le_mul_of_nonneg_right (by exact_mod_cast hr) (le_of_lt (ten_zpow_pos _))
  · calc round18pos a ≤ 10 ^ (Int.log 10 a + 1) := round18pos_ub ha
      _ ≤ 10 ^ Int.log 10 b := zpow_le_zpow_right₀ (by norm_num) (by omega)
      _ ≤ round18pos b := round18pos_lb hb

theorem round18_zero : round18 0 = 0 := by simp [round18]

theorem round18_of_pos {q : ℚ} (h : 0 < q) : round18 q = round18pos q := by
  simp only [round18, if_neg (ne_of_gt h), if_neg (not_lt.mpr (le_of_lt h))]

theorem round18_of_neg {q : ℚ} (h : q < 0) : round18 q = -round18pos (-q) := by
  simp only [round18, if_neg (ne_of_lt h), if_pos h]

theorem round18_neg (q : ℚ) : round18 (-q) = -round18 q := by
  rcases lt_trichotomy q 0 with h | h | h
  · rw [round18_of_neg h, round18_of_pos (by linarith : (0 : ℚ) < -q), neg_neg]
  · simp [h, round18_zero]
  · rw [round18_of_pos h, round18_of_neg (by linarith : -q < 0), neg_neg]

theorem round18_pos {q : ℚ} (h : 0 < q) : 0 < round18 q := by
  rw [round18_of_pos h]; exact round18pos_pos h

theorem round18_nonneg {q : ℚ} (h : 0 ≤ q) : 0 ≤ round18 q := by
  rcases eq_or_lt_of_le h with h0 | h0
  · simp [← h0, round18_zero]
  · exact le_of_lt (round18_pos h0)

theorem round18_neg_of_neg {q : ℚ} (h : q < 0) : round18 q < 0 := by
  rw [round18_of_neg h]
  have := round18pos_pos (by linarith : (0 : ℚ) < -q)
  linarith

theorem round18_nonpos {q : ℚ} (h : q ≤ 0) : round18 q ≤ 0 := by
  rcases eq_or_lt_of_le h with h0 | h0
  · simp [h0, round18_zero]
  · exact le_of_lt (round18_neg_of_neg h0)

theorem round18_mono {a b : ℚ} (h : a ≤ b) : round18 a ≤ round18 b := by
  rcases lt_trichotomy a 0 with ha | ha | ha
  · rcases lt_trichotomy b 0 with hb | hb | hb
    · have hm : round18pos (-b) ≤ round18pos (-a) :=
        round18pos_mono (by linarith) (by linarith)
      rw [round18_of_neg ha, round18_of_neg hb]
      linarith
    · rw [hb, round18_zero]; exact round18_nonpos (le_of_lt ha)
    · exact le_trans (round18_nonpos (le_of_lt ha)) (round18_nonneg (le_of_lt hb))
  · rw [ha, round18_zero]; exact round18_nonneg (by linarith)
  · rw [round18_of_pos ha, round18_of_pos (by linarith : (0 : ℚ) < b)]
    exact round18pos_mono ha h

theorem round18pos_eq_self_of_int {q : ℚ} (N : ℤ)
    (hx : q * 10 ^ ((17 : ℤ) - Int.log 10 q) = (N : ℚ)) : round18pos q = q := by
  unfold round18pos
  rw [hx, roundHalfEvenQ_intCast, ← hx, mul_assoc, ten_zpow_mul]
  have h0 : (17 : ℤ) - Int.log 10 q + (Int.log 10 q - 17) = 0 := by ring
  rw [h0, zpow_zero, mul_one]

theorem round18_eq_self_of_rep {m : ℕ} (k : ℤ) (hm : m ≤ 10 ^ 18) :
    round18 ((m : ℚ) * 10 ^ k) = (m : ℚ) * 10 ^ k := by
  rcases Nat.eq_zero_or_pos m with h0 | h0
  · subst h0; simp [round18_zero]
  have hqpos : 0 < (m : ℚ) * 10 ^ k :=
    mul_pos (by exact_mod_cast h0) (ten_zpow_pos k)
  rw [round18_of_pos hqpos]
  rcases eq_or_lt_of_le hm with h18 | h18
  · have hq : (m : ℚ) * 10 ^ k = (10 : ℚ) ^ (k + 18) := by
      rw [h18]
      calc ((10 ^ 18 : ℕ) : ℚ) * 10 ^ k = (10 : ℚ) ^ (18 : ℤ) * 10 ^ k := by norm_num
        _ = (10 : ℚ) ^ (k + 18) := by rw [ten_zpow_mul]; ring_nf
    have helog : Int.log 10 ((m : ℚ) * 10 ^ k) = k + 18 := by
      rw [hq]
      have h := Int.log_zpow (b := 10) (R := ℚ) (by norm_num) (k + 18)
      simpa using h
    apply round18pos_eq_self_of_int (N := 10 ^ 17)
    rw [helog, hq, ten_zpow_mul]
    have h17 : k + 18 + (17 - (k + 18)) = (17 : ℤ) := by ring
    rw [h17]
    norm_num
  · have hub : (m : ℚ) * 10 ^ k < (10 : ℚ) ^ (k + 18) := by
      calc (m : ℚ) * 10 ^ k < ((10 ^ 18 : ℕ) : ℚ) * 10 ^ k :=
            mul_lt_mul_of_pos_right (by exact_mod_cast h18) (ten_zpow_pos k)
        _ = (10 : ℚ) ^ (18 : ℤ) * 10 ^ k := by norm_num
        _ = (10 : ℚ) ^ (k + 18) := by rw [ten_zpow_mul]; ring_nf
    have helt : Int.log 10 ((m : ℚ) * 10 ^ k) < k + 18 := by
      have h1 : (10 : ℚ) ^ Int.log 10 ((m : ℚ) * 10 ^ k) ≤ (m : ℚ) * 10 ^ k :=
        log10_lb hqpos
      exact (zpow_lt_zpow_iff_right₀ (by norm_num : (1 : ℚ) < 10)).mp
        (lt_of_le_of_lt h1 hub)
    apply round18pos_eq_self_of_int
      (N := (m : ℤ) * 10 ^ (k + 17 - Int.log 10 ((m : ℚ) * 10 ^ k)).toNat)
    rw [mul_assoc, ten_zpow_mul]
    have h0e : k + ((17 : ℤ) - Int.log 10 ((m : ℚ) * 10 ^ k)) =
        ((k + 17 - Int.log 10 ((m : ℚ) * 10 ^ k)).toNat : ℤ) := by
      rw [Int.toNat_of_nonneg (by omega)]
      ring
    rw [h0e, zpow_natCast]
    push_cast
    ring

theorem round18_eq_decimal {q : ℚ} (m : ℕ) (k : ℤ) (hval : q = (m : ℚ) * 10 ^ k)
    (hm : m ≤ 10 ^ 18) : round18 q = q := by
  rw [hval]; exact round18_eq_self_of_rep k hm

theorem round18pos_rep {q : ℚ} (hq : 0 < q) :
    ∃ m : ℕ, m ≤ 10 ^ 18 ∧ round18pos q = (m : ℚ) * 10 ^ (Int.log 10 q - 17) := by
  have hxpos : 0 < q * 10 ^ ((17 : ℤ) - Int.log 10 q) :=
    mul_pos hq (ten_zpow_pos _)
  have hnn : 0 ≤ roundHalfEvenQ (q * 10 ^ ((17 : ℤ) - Int.log 10 q)) :=
    le_trans (Int.floor_nonneg.mpr (le_of_lt hxpos)) (roundHalfEvenQ_ge_floor _)
  have hxub : q * 10 ^ ((17 : ℤ) - Int.log 10 q) < (10 : ℚ) ^ (18 : ℤ) := by
    calc q * 10 ^ ((17 : ℤ) - Int.log 10 q)
        < (10 : ℚ) ^ (Int.log 10 q + 1) * 10 ^ (17 - Int.log 10 q) :=
          mul_lt_mul_of_pos_right (log10_ub q) (ten_zpow_pos _)
      _ = (10 : ℚ) ^ (18 : ℤ) := by rw [ten_zpow_mul]; ring_nf
  have hfl : ⌊q * 10 ^ ((17 : ℤ) - Int.log 10 q)⌋ < (10 ^ 18 : ℤ) := by
    rw [Int.floor_lt]
    calc q * 10 ^ ((17 : ℤ) - Int.log 10 q) < (10 : ℚ) ^ (18 : ℤ) := hxub
      _ = ((10 ^ 18 : ℤ) : ℚ) := by norm_num
  have hrub : roundHalfEvenQ (q * 10 ^ ((17 : ℤ) - Int.log 10 q)) ≤ (10 ^ 18 : ℤ) :=
    le_trans (roundHalfEvenQ_le_floor_add_one _) (by omega)
  refine ⟨(roundHalfEvenQ (q * 10 ^ ((17 : ℤ) - Int.log 10 q))).toNat, by omega, ?_⟩
  unfold round18pos
  congr 1
  exact_mod_cast (Int.toNat_of_nonneg hnn).symm

theorem round18_mul_zpow (q : ℚ) (t : ℤ) :
    round18 (round18 q * 10 ^ t) = round18 q * 10 ^ t := by
  rcases lt_trichotomy q 0 with h | h | h
  · rw [round18_of_neg h]
    obtain ⟨m, hm, hrep⟩ := round18pos_rep (by linarith : (0 : ℚ) < -q)
    rw [hrep, neg_mul, round18_neg, mul_assoc, ten_zpow_mul,
      round18_eq_self_of_rep _ hm]
  · simp [h, round18_zero]
  · rw [round18_of_pos h]
    obtain ⟨m, hm, hrep⟩ := round18pos_rep h
    rw [hrep, mul_assoc, ten_zpow_mul, round18_eq_self_of_rep _ hm]

/-! ### Byte-level lemmas -/

theorem toLE_length (k n : ℕ) : (toLE k n).length = k := by
  induction k generalizing n with
  | zero => rfl
  | succ k ih => simp [toLE, ih]

theorem fromLE_toLE {k n : ℕ} (h : n < 256 ^ k) : fromLE (toLE k n) = n := by
  induction k generalizing n with
  | zero =>
    rw [pow_zero] at h
    simp only [toLE, fromLE]
    omega
  | succ k ih =>
    have hdiv : n / 256 < 256 ^ k := by
      rw [Nat.div_lt_iff_lt_mul (by norm_num : 0 < 256)]
      calc n < 256 ^ (k + 1) := h
        _ = 256 ^ k * 256 := by ring
    simp only [toLE, fromLE, ih hdiv]
    omega

theorem toSigned32_roundtrip {tick : ℤ} (hlo : -2 ^ 31 ≤ tick) (hhi : tick < 2 ^ 31) :
    toSigned32 ((tick % 2 ^ 32).toNat) = tick := by
  have h0 : (0 : ℤ) ≤ tick % 2 ^ 32 := Int.emod_nonneg _ (by norm_num)
  have h1 : tick % 2 ^ 32 < 2 ^ 32 := Int.emod_lt_of_pos _ (by norm_num)
  unfold toSigned32
  split_ifs with h
  · omega
  · omega

theorem drop_chunk {α : Type} {f rest : List α} {k : ℕ} (hf : f.length = k) (m : ℕ) :
    (f ++ rest).drop (k + m) = rest.drop m := by
  rw [← hf, List.drop_append]

/-- Round-trip through a synthetic buffer: the decoder reads back exactly
the field values injected at the layout offsets. -/
theorem decode_encodeWhirlpool
    (pre : List ℕ) (sqrtP : ℕ) (tick : ℤ) (liq ts : ℕ)
    (vA vB t0 t1 t2 gap post : List ℕ)
    (hpre : pre.length = 65) (hgap : gap.length = 1) (hpost : post.length = 389)
    (hvA : vA.length = 32) (hvB : vB.length = 32) (ht0 : t0.length = 32)
    (ht1 : t1.length = 32) (ht2 : t2.length = 32)
    (hs : sqrtP < 2 ^ 128) (hl : liq < 2 ^ 128) (hts : ts < 2 ^ 16)
    (htlo : -2 ^ 31 ≤ tick) (hthi : tick < 2 ^ 31) :
    decode_whirlpool (encodeWhirlpool pre sqrtP tick liq ts vA vB t0 t1 t2 gap post) =
      .ok { price := sqrt_price_to_price sqrtP
            sqrt_price_x64 := sqrtP
            liquidity_raw := liq
            liquidity := if 0 < liq then (liq : ℚ) / 2 ^ 64 else 0
            vault_a := vA
            vault_b := vB
            tick_current_index := tick
            tick_spacing := ts
            tick_array_0 := t0
            tick_array_1 := t1
            tick_array_2 := t2 } := by
  have hts32 : toSigned32 ((tick % 2 ^ 32).toNat) = tick := toSigned32_roundtrip htlo hthi
  have hub : (tick % 2 ^ 32).toNat < 256 ^ 4 := by
    have h1 : tick % 2 ^ 32 < 2 ^ 32 := Int.emod_lt_of_pos _ (by norm_num)
    norm_num
    omega
  generalize hu : (tick % 2 ^ 32).toNat = u at hts32 hub ⊢
  have l1 : (toLE 16 sqrtP).length = 16 := toLE_length _ _
  have l2 : (toLE 4 u).length = 4 := toLE_length _ _
  have l3 : (toLE 16 liq).length = 16 := toLE_length _ _
  have l4 : (toLE 2 ts).length = 2 := toLE_length _ _
  have henc : encodeWhirlpool pre sqrtP tick liq ts vA vB t0 t1 t2 gap post =
      pre ++ (toLE 16 sqrtP ++ (toLE 4 u ++ (toLE 16 liq ++ (toLE 2 ts ++ (gap ++
        (vA ++ (vB ++ (t0 ++ (t1 ++ (t2 ++ post)))))))))) := by
    rw [encodeWhirlpool, hu]
    simp [List.append_assoc]
  have hlen : (encodeWhirlpool pre sqrtP tick liq ts vA vB t0 t1 t2 gap post).length
      = 653 := by
    rw [henc]
    simp only [List.length_append, hpre, hgap, hpost, hvA, hvB, ht0, ht1, ht2,
      l1, l2, l3, l4]
  have d65 : (encodeWhirlpool pre sqrtP tick liq ts vA vB t0 t1 t2 gap post).drop 65 =
      toLE 16 sqrtP ++ (toLE 4 u ++ (toLE 16 liq ++ (toLE 2 ts ++ (gap ++
        (vA ++ (vB ++ (t0 ++ (t1 ++ (t2 ++ post))))))))) := by
    rw [henc, List.drop_left' hpre]
  have d81 : (encodeWhirlpool pre sqrtP tick liq ts vA vB t0 t1 t2 gap post).drop 81 =
      toLE 4 u ++ (toLE 16 liq ++ (toLE 2 ts ++ (gap ++
        (vA ++ (vB ++ (t0 ++ (t1 ++ (t2 ++ post)))))))) := by
    rw [show (81 : ℕ) = 65 + 16 from rfl, ← List.drop_drop, d65, List.drop_left' l1]
  have d85 : (encodeWhirlpool pre sqrtP tick liq ts vA vB t0 t1 t2 gap post).drop 85 =
      toLE 16 liq ++ (toLE 2 ts ++ (gap ++
        (vA ++ (vB ++ (t0 ++ (t1 ++ (t2 ++ post))))))) := by
    rw [show (85 : ℕ) = 81 + 4 from rfl, ← List.drop_drop, d81, List.drop_left' l2]
  have d101 : (encodeWhirlpool pre sqrtP tick liq ts vA vB t0 t1 t2 gap post).drop 101 =
      toLE 2 ts ++ (gap ++ (vA ++ (vB ++ (t0 ++ (t1 ++ (t2 ++ post)))))) := by
    rw [show (101 : ℕ) = 85 + 16 from rfl, ← List.drop_drop, d85, List.drop_left' l3]
  have d104 : (encodeWhirlpool pre sqrtP tick liq ts vA vB t0 t1 t2 gap post).drop 104 =
      vA ++ (vB ++ (t0 ++ (t1 ++ (t2 ++ post)))) := by
    rw [show (104 : ℕ) = 101 + 3 from rfl, ← List.drop_drop, d101,
      show (3 : ℕ) = 2 + 1 from rfl, drop_chunk l4, List.drop_left' hgap]
  have d136 : (encodeWhirlpool pre sqrtP tick liq ts vA vB t0 t1 t2 gap post).drop 136 =
      vB ++ (t0 ++ (t1 ++ (t2 ++ post))) := by
    rw [show (136 : ℕ) = 104 + 32 from rfl, ← List.drop_drop, d104, List.drop_left' hvA]
  have d168 : (encodeWhirlpool pre sqrtP tick liq ts vA vB t0 t1 t2 gap post).drop 168 =
      t0 ++ (t1 ++ (t2 ++ post)) := by
    rw [show (168 : ℕ) = 136 + 32 from rfl, ← List.drop_drop, d136, List.drop_left' hvB]
  have d200 : (encodeWhirlpool pre sqrtP tick liq ts vA vB t0 t1 t2 gap post).drop 200 =
      t1 ++ (t2 ++ post) := by
    rw [show (200 : ℕ) = 168 + 32 from rfl, ← List.drop_drop, d168, List.drop_left' ht0]
  have d232 : (encodeWhirlpool pre sqrtP tick liq ts vA vB t0 t1 t2 gap post).drop 232 =
      t2 ++ post := by
    rw [show (232 : ℕ) = 200 + 32 from rfl, ← List.drop_drop, d200, List.drop_left' ht1]
  have e1 : slice (encodeWhirlpool pre sqrtP tick liq ts vA vB t0 t1 t2 gap post) 65 81 =
      toLE 16 sqrtP := by
    unfold slice
    rw [show (81 - 65 : ℕ) = 16 from rfl, d65, List.take_left' l1]
  have e2 : slice (encodeWhirlpool pre sqrtP tick liq ts vA vB t0 t1 t2 gap post) 81 85 =
      toLE 4 u := by
    unfold slice
    rw [show (85 - 81 : ℕ) = 4 from rfl, d81, List.take_left' l2]
  have e3 : slice (encodeWhirlpool pre sqrtP tick liq ts vA vB t0 t1 t2 gap post) 85 101 =
      toLE 16 liq := by
    unfold slice
    rw [show (101 - 85 : ℕ) = 16 from rfl, d85, List.take_left' l3]
  have e4 : slice (encodeWhirlpool pre sqrtP tick liq ts vA vB t0 t1 t2 gap post) 101 103 =
      toLE 2 ts := by
    unfold slice
    rw [show (103 - 101 : ℕ) = 2 from rfl, d101, List.take_left' l4]
  have e5 : slice (encodeWhirlpool pre sqrtP tick liq ts vA vB t0 t1 t2 gap post) 104 136 =
      vA := by
    unfold slice
    rw [show (136 - 104 : ℕ) = 32 from rfl, d104, List.take_left' hvA]
  have e6 : slice (encodeWhirlpool pre sqrtP tick liq ts vA vB t0 t1 t2 gap post) 136 168 =
      vB := by
    unfold slice
    rw [show (168 - 136 : ℕ) = 32 from rfl, d136, List.take_left' hvB]
  have e7 : slice (encodeWhirlpool pre sqrtP tick liq ts vA vB t0 t1 t2 gap post) 168 200 =
      t0 := by
    unfold slice
    rw [show (200 - 168 : ℕ) = 32 from rfl, d168, List.take_left' ht0]
  have e8 : slice (encodeWhirlpool pre sqrtP tick liq ts vA vB t0 t1 t2 gap post) 200 232 =
      t1 := by
    unfold slice
    rw [show (232 - 200 : ℕ) = 32 from rfl, d200, List.take_left' ht1]
  have e9 : slice (encodeWhirlpool pre sqrtP tick liq ts vA vB t0 t1 t2 gap post) 232 264 =
      t2 := by
    unfold slice
    rw [show (264 - 232 : ℕ) = 32 from rfl, d232, List.take_left' ht2]
  have f1 : fromLE (toLE 16 sqrtP) = sqrtP :=
    fromLE_toLE (lt_of_lt_of_eq hs (by norm_num))
  have f2 : fromLE (toLE 4 u) = u := fromLE_toLE hub
  have f3 : fromLE (toLE 16 liq) = liq :=
    fromLE_toLE (lt_of_lt_of_eq hl (by norm_num))
  have f4 : fromLE (toLE 2 ts) = ts :=
    fromLE_toLE (lt_of_lt_of_eq hts (by norm_num))
  unfold decode_whirlpool
  rw [hlen, if_neg (by norm_num), e1, e2, e3, e4, e5, e6, e7, e8, e9, f1, f2, f3, f4,
    hts32]

/-- C1.  Pool decode round-trip: decoding any 653-byte buffer built with
known field values at the specified little-endian offsets (u128 sqrt
price at 65-81, signed i32 tick at 81-85, u128 liquidity at 85-101, u16
tick spacing at 101-103, the vault and tick-array identifiers at 104-136,
136-168, 168-200, 200-232, 232-264) returns exactly those values, and
decoding a buffer of any other length fails with `malformedAccount`. -/
theorem c1_decode_roundtrip :
    (∀ (pre : List ℕ) (sqrtP : ℕ) (tick : ℤ) (liq ts : ℕ)
      (vA vB t0 t1 t2 gap post : List ℕ),
      pre.length = 65 → gap.length = 1 → post.length = 389 →
      vA.length = 32 → vB.length = 32 → t0.length = 32 → t1.length = 32 →
      t2.length = 32 → sqrtP < 2 ^ 128 → liq < 2 ^ 128 → ts < 2 ^ 16 →
      -2 ^ 31 ≤ tick → tick < 2 ^ 31 →
      decode_whirlpool (encodeWhirlpool pre sqrtP tick liq ts vA vB t0 t1 t2 gap post) =
        .ok { price := sqrt_price_to_price sqrtP
              sqrt_price_x64 := sqrtP
              liquidity_raw := liq
              liquidity := if 0 < liq then (liq : ℚ) / 2 ^ 64 else 0
              vault_a := vA
              vault_b := vB
              tick_current_index := tick
              tick_spacing := ts
              tick_array_0 := t0
              tick_array_1 := t1
              tick_array_2 := t2 }) ∧
    (∀ data : List ℕ, data.length ≠ 653 →
      decode_whirlpool data = .error .malformedAccount) := by
  constructor
  · intro pre sqrtP tick liq ts vA vB t0 t1 t2 gap post h1 h2 h3 h4 h5 h6 h7 h8 h9
      h10 h11 h12 h13
    exact decode_encodeWhirlpool pre sqrtP tick liq ts vA vB t0 t1 t2 gap post
      h1 h2 h3 h4 h5 h6 h7 h8 h9 h10 h11 h12 h13
  · intro data h
    unfold decode_whirlpool
    rw [if_pos h]

/-- Witness for C1 at a concrete synthetic buffer and a concrete
wrong-length buffer. -/
theorem c1_decode_roundtrip_witness :
    decode_whirlpool (encodeWhirlpool (List.replicate 65 7) 5 (-3) 9 2
      (List.replicate 32 1) (List.replicate 32 2) (List.replicate 32 3)
      (List.replicate 32 4) (List.replicate 32 5) [0] (List.replicate 389 6)) =
      .ok { price := sqrt_price_to_price 5
            sqrt_price_x64 := 5
            liquidity_raw := 9
            liquidity := if 0 < 9 then (9 : ℚ) / 2 ^ 64 else 0
            vault_a := List.replicate 32 1
            vault_b := List.replicate 32 2
            tick_current_index := -3
            tick_spacing := 2
            tick_array_0 := List.replicate 32 3
            tick_array_1 := List.replicate 32 4
            tick_array_2 := List.replicate 32 5 } ∧
    decode_whirlpool [] = .error .malformedAccount := by
  constructor
  · exact c1_decode_roundtrip.1 (List.replicate 65 7) 5 (-3) 9 2
      (List.replicate 32 1) (List.replicate 32 2) (List.replicate 32 3)
      (List.replicate 32 4) (List.replicate 32 5) [0] (List.replicate 389 6)
      (List.length_replicate 65 7) rfl (List.length_replicate 389 6)
      (List.length_replicate 32 1) (List.length_replicate 32 2)
      (List.length_replicate 32 3) (List.length_replicate 32 4)
      (List.length_replicate 32 5) (by norm_num) (by norm_num) (by norm_num)
      (by norm_num) (by norm_num)
  · exact c1_decode_roundtrip.2 [] (by decide)

/-- Token-holding decode helper: a buffer of 64 prefix bytes, the u64
amount and any tail decodes to that amount, with the display value the
binary64 rounding of `amount / 10^6`. -/
theorem get_vault_balance_usdc_decode (pre post : List ℕ) (amt lam : ℕ)
    (hpre : pre.length = 64) (hamt : amt < 2 ^ 64) :
    get_vault_balance (.found (pre ++ (toLE 8 amt ++ post)) lam) true =
      ⟨amt, roundFloat64 ((amt : ℚ) / 1000000), "USDC"⟩ := by
  have hlen : 72 ≤ (pre ++ (toLE 8 amt ++ post)).length := by
    simp only [List.length_append, hpre, toLE_length]
    omega
  have hslice : slice (pre ++ (toLE 8 amt ++ post)) 64 72 = toLE 8 amt := by
    unfold slice
    rw [show (72 - 64 : ℕ) = 8 from rfl, List.drop_left' hpre,
      List.take_left' (toLE_length 8 amt)]
  have hfrom : fromLE (toLE 8 amt) = amt :=
    fromLE_toLE (lt_of_lt_of_eq hamt (by norm_num))
  simp only [get_vault_balance, hslice, hfrom, if_true, if_pos hlen]

theorem log2_lb {q : ℚ} (hq : 0 < q) : (2 : ℚ) ^ Int.log 2 q ≤ q := by
  have h := Int.zpow_log_le_self (b := 2) (R := ℚ) (by norm_num) hq
  simpa using h

theorem log2_ub (q : ℚ) : q < (2 : ℚ) ^ (Int.log 2 q + 1) := by
  have h := Int.lt_zpow_succ_log_self (b := 2) (R := ℚ) (by norm_num) q
  simpa using h

theorem log2_unique {q : ℚ} (hq : 0 < q) (e : ℤ) (h1 : (2 : ℚ) ^ e ≤ q)
    (h2 : q < (2 : ℚ) ^ (e + 1)) : Int.log 2 q = e := by
  have hl1 := log2_lb hq
  have hl2 := log2_ub q
  by_contra hne
  rcases lt_or_gt_of_ne hne with hlt | hgt
  · have : (2 : ℚ) ^ (Int.log 2 q + 1) ≤ 2 ^ e :=
      zpow_le_zpow_right₀ (by norm_num) (by omega)
    linarith
  · have : (2 : ℚ) ^ (e + 1) ≤ 2 ^ Int.log 2 q :=
      zpow_le_zpow_right₀ (by norm_num) (by omega)
    linarith

theorem roundFloat64_of_pos {q : ℚ} (h : 0 < q) : roundFloat64 q = roundFloat64pos q := by
  simp only [roundFloat64, if_neg (ne_of_gt h), if_neg (not_lt.mpr (le_of_lt h))]

/-- `1 / 10^6` is not a binary64 value: the float division `1 / 1_000_000`
returns the nearest double, whose significand is `4722366482869645` at
exponent `-72`, strictly below the exact quotient. -/
theorem roundFloat64_millionth :
    roundFloat64 ((1 : ℚ) / 1000000) = 4722366482869645 / 2 ^ 72 := by
  have hqpos : (0 : ℚ) < 1 / 1000000 := by norm_num
  have he : Int.log 2 ((1 : ℚ) / 1000000) = -20 := by
    apply log2_unique hqpos
    · norm_num
    · norm_num
  rw [roundFloat64_of_pos hqpos]
  unfold roundFloat64pos
  rw [he]
  have hx : (1 : ℚ) / 1000000 * 2 ^ ((52 : ℤ) - -20) = 2 ^ 72 / 1000000 := by
    rw [show ((52 : ℤ) - -20) = ((72 : ℕ) : ℤ) from by norm_num, zpow_natCast]
    ring
  rw [hx]
  have hfl : ⌊(2 : ℚ) ^ 72 / 1000000⌋ = 4722366482869645 := by
    rw [Int.floor_eq_iff]
    constructor
    · push_cast
      rw [le_div_iff₀ (by norm_num : (0 : ℚ) < 1000000)]
      norm_num
    · push_cast
      rw [div_lt_iff₀ (by norm_num : (0 : ℚ) < 1000000)]
      norm_num
  have hfr : Int.fract ((2 : ℚ) ^ 72 / 1000000) < 1 / 2 := by
    simp only [Int.fract]
    rw [hfl, sub_lt_iff_lt_add, div_lt_iff₀ (by norm_num : (0 : ℚ) < 1000000)]
    push_cast
    norm_num
  unfold roundHalfEvenQ
  rw [if_pos hfr, hfl]
  push_cast
  norm_num

/-- C9 (amended).  Token-holding balance decode: a token-account buffer of
length at least 72 (here 64 prefix bytes, the u64 amount, any tail)
decodes to the little-endian u64 at bytes 64-72, with `display` the
binary64 (Python float) rounding of `raw / 10^6` — equal to the exact
quotient only when that quotient is representable; a shorter buffer
yields the zero balance instead of failing. -/
theorem c9_vault_balance_decode :
    (∀ (pre post : List ℕ) (amt lam : ℕ), pre.length = 64 → amt < 2 ^ 64 →
      get_vault_balance (.found (pre ++ (toLE 8 amt ++ post)) lam) true =
        ⟨amt, roundFloat64 ((amt : ℚ) / 1000000), "USDC"⟩) ∧
    (∀ (data : List ℕ) (lam : ℕ), data.length < 72 →
      get_vault_balance (.found data lam) true = ⟨0, 0, "USDC"⟩) := by
  constructor
  · exact get_vault_balance_usdc_decode
  · intro data lam h
    simp only [get_vault_balance, if_true, if_neg (by omega : ¬ 72 ≤ data.length)]

/-- Witness for C9: a concrete 72-byte token account and a concrete short
buffer. -/
theorem c9_vault_balance_decode_witness :
    get_vault_balance (.found (List.replicate 64 0 ++ (toLE 8 123456 ++ [])) 7) true =
      ⟨123456, roundFloat64 (((123456 : ℕ) : ℚ) / 1000000), "USDC"⟩ ∧
    get_vault_balance (.found [1, 2, 3] 5) true = ⟨0, 0, "USDC"⟩ :=
  ⟨c9_vault_balance_decode.1 (List.replicate 64 0) [] 123456 7
      (List.length_replicate 64 0) (by norm_num),
    c9_vault_balance_decode.2 [1, 2, 3] 5 (by norm_num)⟩

/-- Counterexample to C9 as stated: at `rawAmount = 1` the decoded display
value is the nearest double `4722366482869645 * 2^-72`, not the exact
rational `1 / 10^6`. -/
theorem c9_vault_balance_decode_counterexample :
    (get_vault_balance (.found (List.replicate 64 0 ++ (toLE 8 1 ++ [])) 0)
      true).raw = 1 ∧
    (get_vault_balance (.found (List.replicate 64 0 ++ (toLE 8 1 ++ [])) 0)
      true).display ≠ ((1 : ℕ) : ℚ) / 1000000 := by
  have h := get_vault_balance_usdc_decode (List.replicate 64 0) [] 1 0
    (List.length_replicate 64 0) (by norm_num)
  rw [h]
  refine ⟨rfl, ?_⟩
  show roundFloat64 (((1 : ℕ) : ℚ) / 1000000) ≠ ((1 : ℕ) : ℚ) / 1000000
  rw [show (((1 : ℕ) : ℚ) / 1000000) = (1 : ℚ) / 1000000 from by push_cast; ring,
    roundFloat64_millionth]
  intro hc
  rw [div_eq_div_iff (by positivity) (by norm_num)] at hc
  norm_num at hc

/-- C10.  Vault-balance totality: `get_vault_balance` returns a balance
record for every fetch outcome, always labeled with the requested token;
a fetch exception or missing account yields the zero balance, and in
token mode so does any buffer shorter than 72 bytes.  (Totality itself is
structural: the embedding is a total function, matching the
`try/except` that converts every exception into a zero-balance record.) -/
theorem c10_vault_balance_total :
    (∀ (fetch : FetchOutcome) (is_usdc : Bool),
      (get_vault_balance fetch is_usdc).token = if is_usdc then "USDC" else "SOL") ∧
    (∀ is_usdc : Bool,
      get_vault_balance .fetchError is_usdc =
        ⟨0, 0, if is_usdc then "USDC" else "SOL"⟩ ∧
      get_vault_balance .notFound is_usdc =
        ⟨0, 0, if is_usdc then "USDC" else "SOL"⟩) ∧
    (∀ (data : List ℕ) (lam : ℕ), data.length < 72 →
      get_vault_balance (.found data lam) true = ⟨0, 0, "USDC"⟩) := by
  refine ⟨?_, ?_, ?_⟩
  · intro fetch is_usdc
    cases fetch with
    | fetchError => rfl
    | notFound => rfl
    | found data lam =>
      cases is_usdc with
      | false => rfl
      | true =>
        simp only [get_vault_balance, if_true]
        split_ifs <;> rfl
  · intro is_usdc
    exact ⟨rfl, rfl⟩
  · intro data lam h
    simp only [get_vault_balance, if_true, if_neg (by omega : ¬ 72 ≤ data.length)]

/-- Witness for C10 at concrete fetch outcomes. -/
theorem c10_vault_balance_total_witness :
    (get_vault_balance (.found [9] 5) false).token = (if false then "USDC" else "SOL") ∧
    get_vault_balance .fetchError true = ⟨0, 0, if true then "USDC" else "SOL"⟩ ∧
    get_vault_balance (.found [] 0) true = ⟨0, 0, "USDC"⟩ :=
  ⟨c10_vault_balance_total.1 (.found [9] 5) false,
    (c10_vault_balance_total.2.1 true).1,
    c10_vault_balance_total.2.2 [] 0 (by norm_num)⟩

/-! ### Engine lemmas -/

theorem mem_pairsList {l : List PoolQuote} {a b : PoolQuote}
    (h : (a, b) ∈ pairsList l) : a ∈ l ∧ b ∈ l := by
  induction l with
  | nil => simp [pairsList] at h
  | cons p rest ih =>
    simp only [pairsList, List.mem_append, List.mem_map] at h
    rcases h with ⟨r, hr, heq⟩ | h
    · have h1 : p = a := congrArg Prod.fst heq
      have h2 : r = b := congrArg Prod.snd heq
      subst h1; subst h2
      exact ⟨List.mem_cons_self _ _, List.mem_cons_of_mem _ hr⟩
    · have := ih h
      exact ⟨List.mem_cons_of_mem _ this.1, List.mem_cons_of_mem _ this.2⟩

theorem mem_find {pools : List PoolQuote} {o : Opportunity}
    (h : o ∈ find_arbitrage_opportunities pools) :
    (o.pool1, o.pool2) ∈ pairsList pools ∧
      calculate_arbitrage_simple o.pool1 o.pool2 = o.arbitrage ∧
      o.arbitrage.profitable = true := by
  unfold find_arbitrage_opportunities at h
  rw [List.mem_filterMap] at h
  obtain ⟨pq, hmem, heq⟩ := h
  by_cases hp : (calculate_arbitrage_simple pq.1 pq.2).profitable
  · rw [if_pos hp] at heq
    have ho : (⟨pq.1, pq.2, calculate_arbitrage_simple pq.1 pq.2⟩ : Opportunity) = o :=
      Option.some.inj heq
    subst ho
    exact ⟨by simpa using hmem, rfl, by simpa using hp⟩
  · rw [if_neg hp] at heq
    exact absurd heq (by simp)

theorem find_pair (p q : PoolQuote) :
    find_arbitrage_opportunities [p, q] =
      if (calculate_arbitrage_simple p q).profitable then
        [⟨p, q, calculate_arbitrage_simple p q⟩] else [] := by
  have hpl : pairsList [p, q] = [(p, q)] := by
    simp [pairsList]
  unfold find_arbitrage_opportunities
  rw [hpl]
  by_cases hp : (calculate_arbitrage_simple p q).profitable
  · rw [if_pos hp]
    simp only [List.filterMap_cons, List.filterMap_nil, if_pos hp]
  · rw [if_neg hp]
    simp only [List.filterMap_cons, List.filterMap_nil, if_neg hp]

theorem calc_zero {p q : PoolQuote} (h0 : p.price = 0 ∨ q.price = 0) :
    calculate_arbitrage_simple p q = .undefinedQuote := by
  unfold calculate_arbitrage_simple
  rw [if_pos h0]

theorem calc_lt {p q : PoolQuote} (h0 : ¬(p.price = 0 ∨ q.price = 0))
    (hlt : p.price < q.price) :
    calculate_arbitrage_simple p q =
      mkComputed p.price q.price p.fee_rate q.fee_rate (p.name ++ " -> " ++ q.name) := by
  unfold calculate_arbitrage_simple
  rw [if_neg h0, if_pos hlt]

theorem calc_ge {p q : PoolQuote} (h0 : ¬(p.price = 0 ∨ q.price = 0))
    (hge : ¬ p.price < q.price) :
    calculate_arbitrage_simple p q =
      mkComputed q.price p.price q.fee_rate p.fee_rate (q.name ++ " -> " ++ p.name) := by
  unfold calculate_arbitrage_simple
  rw [if_neg h0, if_neg hge]

/-- With equal spot prices and nonnegative fees the computed profit is at
most zero, whatever the sign of the shared price: revenue can never beat
cost, and every rounding step preserves the comparison. -/
theorem profitPctOf_nonpos_of_eq {v bf sf : ℚ} (hv : v ≠ 0) (hbf : 0 ≤ bf)
    (hsf : 0 ≤ sf) : profitPctOf v v bf sf ≤ 0 := by
  have hb1 : (1 : ℚ) ≤ round18 (1 + bf) := by
    calc (1 : ℚ) = round18 1 := (round18_eq_decimal 1 0 (by norm_num) (by norm_num)).symm
      _ ≤ round18 (1 + bf) := round18_mono (by linarith)
  have h1 : round18 (1 - sf) ≤ round18 (1 + bf) := round18_mono (by linarith)
  unfold profitPctOf costOf revenueOf
  rcases lt_or_gt_of_ne hv with hneg | hpos
  · have hm : v * round18 (1 + bf) ≤ v * round18 (1 - sf) :=
      mul_le_mul_of_nonpos_left h1 (le_of_lt hneg)
    have hCR : round18 (v * round18 (1 + bf)) ≤ round18 (v * round18 (1 - sf)) :=
      round18_mono hm
    have hCneg : round18 (v * round18 (1 + bf)) < 0 :=
      round18_neg_of_neg (mul_neg_of_neg_of_pos hneg (lt_of_lt_of_le one_pos hb1))
    have hdiff : 0 ≤ round18 (round18 (v * round18 (1 - sf)) -
        round18 (v * round18 (1 + bf))) :=
      round18_nonneg (by linarith)
    exact round18_nonpos (div_nonpos_iff.mpr (Or.inl ⟨hdiff, le_of_lt hCneg⟩))
  · have hm : v * round18 (1 - sf) ≤ v * round18 (1 + bf) :=
      mul_le_mul_of_nonneg_left h1 (le_of_lt hpos)
    have hRC : round18 (v * round18 (1 - sf)) ≤ round18 (v * round18 (1 + bf)) :=
      round18_mono hm
    have hCpos : 0 < round18 (v * round18 (1 + bf)) :=
      round18_pos (mul_pos hpos (lt_of_lt_of_le one_pos hb1))
    have hdiff : round18 (round18 (v * round18 (1 - sf)) -
        round18 (v * round18 (1 + bf))) ≤ 0 :=
      round18_nonpos (by linarith)
    exact round18_nonpos (div_nonpos_iff.mpr (Or.inr ⟨hdiff, le_of_lt hCpos⟩))

theorem calc_tie_not_profitable {p q : PoolQuote} (heq : p.price = q.price)
    (hpf : 0 ≤ p.fee_rate) (hqf : 0 ≤ q.fee_rate) :
    (calculate_arbitrage_simple p q).profitable = false := by
  by_cases h0 : p.price = 0 ∨ q.price = 0
  · rw [calc_zero h0]; rfl
  · rw [calc_ge h0 (by rw [heq]; exact lt_irrefl _)]
    simp only [mkComputed, ArbResult.profitable]
    rw [heq]
    have hle : profitPctOf q.price q.price q.fee_rate p.fee_rate ≤ 0 :=
      profitPctOf_nonpos_of_eq (fun hc => h0 (Or.inr hc)) hqf hpf
    rw [decide_eq_false_iff_not]
    rw [MIN_PROFIT_THRESHOLD]
    intro hc
    linarith

theorem calc_comm {A B : PoolQuote} (hne : A.price ≠ B.price) :
    calculate_arbitrage_simple A B = calculate_arbitrage_simple B A := by
  by_cases h0 : A.price = 0 ∨ B.price = 0
  · rw [calc_zero h0, calc_zero (by tauto)]
  · have h0' : ¬(B.price = 0 ∨ A.price = 0) := by tauto
    rcases lt_or_gt_of_ne hne with hlt | hgt
    · rw [calc_lt h0 hlt, calc_ge h0' (not_lt.mpr (le_of_lt hlt))]
    · rw [calc_ge h0 (not_lt.mpr (le_of_lt hgt)), calc_lt h0' hgt]

/-- C3.  Zero-price exclusion: a quote with spot price zero never appears
in any returned opportunity (the pair is skipped by the early return, not
an error); the engine itself is a total function of its input, matching
the never-raises contract for well-formed quotes. -/
theorem c3_zero_price_exclusion : ∀ (qs : List PoolQuote) (o : Opportunity),
    o ∈ find_arbitrage_opportunities qs → o.pool1.price ≠ 0 ∧ o.pool2.price ≠ 0 := by
  intro qs o ho
  obtain ⟨hmem, hcalc, hprof⟩ := mem_find ho
  constructor <;> intro hz
  · rw [calc_zero (Or.inl hz)] at hcalc
    rw [← hcalc] at hprof
    exact absurd hprof (by simp [ArbResult.profitable])
  · rw [calc_zero (Or.inr hz)] at hcalc
    rw [← hcalc] at hprof
    exact absurd hprof (by simp [ArbResult.profitable])

/-- C5.  Arbitrage symmetry: for quotes with fee rates in `[0, 1)` the
engine produces the same arbitrage payloads (orientation, direction and
profit) on `[A, B]` and `[B, A]`; the buy/sell orientation is a function
of the prices alone, and an equal-price pair is dropped from both. -/
theorem c5_symmetry : ∀ A B : PoolQuote,
    0 ≤ A.fee_rate → A.fee_rate < 1 → 0 ≤ B.fee_rate → B.fee_rate < 1 →
    (find_arbitrage_opportunities [A, B]).map Opportunity.arbitrage =
      (find_arbitrage_opportunities [B, A]).map Opportunity.arbitrage := by
  intro A B hA hA1 hB hB1
  rw [find_pair, find_pair]
  by_cases heq : A.price = B.price
  · rw [calc_tie_not_profitable heq hA hB, calc_tie_not_profitable heq.symm hB hA]
    simp
  · rw [calc_comm heq]
    by_cases hp : (calculate_arbitrage_simple B A).profitable
    · rw [if_pos hp, if_pos hp]
      simp
    · rw [if_neg hp, if_neg hp]

/-- Witness for C5 at two concrete fee-bearing quotes. -/
theorem c5_symmetry_witness :
    (find_arbitrage_opportunities [⟨"P", 150, 1 / 2000⟩, ⟨"Q", 155, 1 / 10000⟩]).map
        Opportunity.arbitrage =
      (find_arbitrage_opportunities [⟨"Q", 155, 1 / 10000⟩, ⟨"P", 150, 1 / 2000⟩]).map
        Opportunity.arbitrage :=
  c5_symmetry ⟨"P", 150, 1 / 2000⟩ ⟨"Q", 155, 1 / 10000⟩
    (by norm_num) (by norm_num) (by norm_num) (by norm_num)

/-- C4.  Tie exclusion and strict orientation: with fee rates in `[0, 1)`
no equal-priced pair is ever emitted, and every emitted opportunity has
`buy_price` equal to the strictly smaller of the two spot prices and
`sell_price` the strictly larger. -/
theorem c4_tie_and_orientation : ∀ (qs : List PoolQuote),
    (∀ q ∈ qs, 0 ≤ q.fee_rate ∧ q.fee_rate < 1) →
    ∀ o ∈ find_arbitrage_opportunities qs,
      o.pool1.price ≠ o.pool2.price ∧
      o.arbitrage.buyPrice? = some (min o.pool1.price o.pool2.price) ∧
      o.arbitrage.sellPrice? = some (max o.pool1.price o.pool2.price) ∧
      min o.pool1.price o.pool2.price < max o.pool1.price o.pool2.price := by
  intro qs hfees o ho
  obtain ⟨hmem, hcalc, hprof⟩ := mem_find ho
  obtain ⟨hm1, hm2⟩ := mem_pairsList hmem
  have hf1 := hfees o.pool1 hm1
  have hf2 := hfees o.pool2 hm2
  have hne : o.pool1.price ≠ o.pool2.price := by
    intro heq
    have hfalse := calc_tie_not_profitable heq hf1.1 hf2.1
    rw [hcalc] at hfalse
    rw [hfalse] at hprof
    exact Bool.false_ne_true hprof
  have h0 : ¬(o.pool1.price = 0 ∨ o.pool2.price = 0) := by
    intro hc
    have hz := calc_zero hc
    rw [hcalc] at hz
    rw [hz] at hprof
    exact absurd hprof (by simp [ArbResult.profitable])
  rcases lt_or_gt_of_ne hne with hlt | hgt
  · rw [← hcalc, calc_lt h0 hlt]
    exact ⟨hne,
      by simp only [mkComputed, ArbResult.buyPrice?, min_eq_left hlt.le],
      by simp only [mkComputed, ArbResult.sellPrice?, max_eq_right hlt.le],
      by rw [min_eq_left hlt.le, max_eq_right hlt.le]; exact hlt⟩
  · rw [← hcalc, calc_ge h0 (not_lt.mpr hgt.le)]
    exact ⟨hne,
      by simp only [mkComputed, ArbResult.buyPrice?, min_eq_right hgt.le],
      by simp only [mkComputed, ArbResult.sellPrice?, max_eq_left hgt.le],
      by rw [min_eq_right hgt.le, max_eq_left hgt.le]; exact hgt⟩

/-! ### Concrete evaluation helpers for witnesses -/

theorem round18_one : round18 (1 : ℚ) = 1 :=
  round18_eq_decimal 1 0 (by norm_num) (by norm_num)

/-- Profit formula with both fees zero, under exactness of the four
rounding steps at the given prices. -/
theorem profitPctOf_zero_fee (bp sp : ℚ) (h1 : round18 bp = bp)
    (h2 : round18 sp = sp) (h3 : round18 (sp - bp) = sp - bp)
    (h4 : round18 ((sp - bp) / bp) = (sp - bp) / bp) :
    profitPctOf bp sp 0 0 = (sp - bp) / bp := by
  unfold profitPctOf costOf revenueOf
  rw [show (1 : ℚ) + 0 = 1 by norm_num, show (1 : ℚ) - 0 = 1 by norm_num,
    round18_one, mul_one, mul_one, h1, h2, h3, h4]

theorem calc_eval_100000_100001 :
    (calculate_arbitrage_simple ⟨"A", 100000, 0⟩ ⟨"B", 100001, 0⟩).profit_pct =
      MIN_PROFIT_THRESHOLD := by
  rw [calc_lt (p := ⟨"A", 100000, 0⟩) (q := ⟨"B", 100001, 0⟩)
    (by norm_num : ¬((100000 : ℚ) = 0 ∨ (100001 : ℚ) = 0))
    (by norm_num : (100000 : ℚ) < 100001)]
  show profitPctOf 100000 100001 0 0 = MIN_PROFIT_THRESHOLD
  rw [profitPctOf_zero_fee _ _
    (round18_eq_decimal 1 5 (by norm_num) (by norm_num))
    (round18_eq_decimal 100001 0 (by norm_num) (by norm_num))
    (round18_eq_decimal 1 0 (by norm_num) (by norm_num))
    (round18_eq_decimal 1 (-5) (by norm_num) (by norm_num))]
  rw [MIN_PROFIT_THRESHOLD]
  norm_num

theorem calc_eval_100000_100010 :
    (calculate_arbitrage_simple ⟨"C", 100000, 0⟩ ⟨"D", 100010, 0⟩).profit_pct =
      OPTIMAL_PROFIT_THRESHOLD := by
  rw [calc_lt (p := ⟨"C", 100000, 0⟩) (q := ⟨"D", 100010, 0⟩)
    (by norm_num : ¬((100000 : ℚ) = 0 ∨ (100010 : ℚ) = 0))
    (by norm_num : (100000 : ℚ) < 100010)]
  show profitPctOf 100000 100010 0 0 = OPTIMAL_PROFIT_THRESHOLD
  rw [profitPctOf_zero_fee _ _
    (round18_eq_decimal 1 5 (by norm_num) (by norm_num))
    (round18_eq_decimal 10001 1 (by norm_num) (by norm_num))
    (round18_eq_decimal 1 1 (by norm_num) (by norm_num))
    (round18_eq_decimal 1 (-4) (by norm_num) (by norm_num))]
  rw [OPTIMAL_PROFIT_THRESHOLD]
  norm_num

theorem calc_eval_200000_200001 :
    (calculate_arbitrage_simple ⟨"E", 200000, 0⟩ ⟨"F", 200001, 0⟩).profit_pct <
      MIN_PROFIT_THRESHOLD := by
  rw [calc_lt (p := ⟨"E", 200000, 0⟩) (q := ⟨"F", 200001, 0⟩)
    (by norm_num : ¬((200000 : ℚ) = 0 ∨ (200001 : ℚ) = 0))
    (by norm_num : (200000 : ℚ) < 200001)]
  show profitPctOf 200000 200001 0 0 < MIN_PROFIT_THRESHOLD
  rw [profitPctOf_zero_fee _ _
    (round18_eq_decimal 2 5 (by norm_num) (by norm_num))
    (round18_eq_decimal 200001 0 (by norm_num) (by norm_num))
    (round18_eq_decimal 1 0 (by norm_num) (by norm_num))
    (round18_eq_decimal 5 (-6) (by norm_num) (by norm_num))]
  rw [MIN_PROFIT_THRESHOLD]
  norm_num

/-- C2.  Threshold boundary for a pair of positive-priced, well-formed
quotes: a computed `profit_pct` exactly `0.00001` sets the PROFITABLE
flag and the pair is included in the returned sequence; exactly `0.0001`
additionally sets the OPTIMAL flag; strictly below `0.00001` the pair is
excluded entirely.  All thresholds compare with `>=`. -/
theorem c2_threshold_boundary : ∀ p q : PoolQuote,
    0 < p.price → 0 < q.price → 0 ≤ p.fee_rate → p.fee_rate < 1 →
    0 ≤ q.fee_rate → q.fee_rate < 1 →
    ((calculate_arbitrage_simple p q).profit_pct = MIN_PROFIT_THRESHOLD →
      (calculate_arbitrage_simple p q).profitable = true ∧
      find_arbitrage_opportunities [p, q] =
        [⟨p, q, calculate_arbitrage_simple p q⟩]) ∧
    ((calculate_arbitrage_simple p q).profit_pct = OPTIMAL_PROFIT_THRESHOLD →
      (calculate_arbitrage_simple p q).optimal? = some true ∧
      (calculate_arbitrage_simple p q).profitable = true ∧
      find_arbitrage_opportunities [p, q] =
        [⟨p, q, calculate_arbitrage_simple p q⟩]) ∧
    ((calculate_arbitrage_simple p q).profit_pct < MIN_PROFIT_THRESHOLD →
      find_arbitrage_opportunities [p, q] = []) := by
  intro p q hp hq hpf hpf1 hqf hqf1
  have h0 : ¬(p.price = 0 ∨ q.price = 0) := by
    push_neg
    exact ⟨ne_of_gt hp, ne_of_gt hq⟩
  have hform : ∃ bp sp bf sf d, calculate_arbitrage_simple p q = mkComputed bp sp bf sf d := by
    by_cases hlt : p.price < q.price
    · exact ⟨_, _, _, _, _, calc_lt h0 hlt⟩
    · exact ⟨_, _, _, _, _, calc_ge h0 hlt⟩
  obtain ⟨bp, sp, bf, sf, d, hform⟩ := hform
  refine ⟨?_, ?_, ?_⟩
  · intro hpp
    rw [hform] at hpp
    simp only [mkComputed, ArbResult.profit_pct] at hpp
    have hprofit : (calculate_arbitrage_simple p q).profitable = true := by
      rw [hform]
      simp only [mkComputed, ArbResult.profitable, hpp, decide_eq_true_eq]
      exact le_refl _
    exact ⟨hprofit, by rw [find_pair, if_pos hprofit]⟩
  · intro hpp
    rw [hform] at hpp
    simp only [mkComputed, ArbResult.profit_pct] at hpp
    have hprofit : (calculate_arbitrage_simple p q).profitable = true := by
      rw [hform]
      simp only [mkComputed, ArbResult.profitable, hpp, decide_eq_true_eq]
      rw [MIN_PROFIT_THRESHOLD, OPTIMAL_PROFIT_THRESHOLD]
      norm_num
    have hopt : (calculate_arbitrage_simple p q).optimal? = some true := by
      rw [hform]
      simp only [mkComputed, ArbResult.optimal?, hpp]
      rw [decide_eq_true (le_refl _)]
    exact ⟨hopt, hprofit, by rw [find_pair, if_pos hprofit]⟩
  · intro hpp
    rw [hform] at hpp
    simp only [mkComputed, ArbResult.profit_pct] at hpp
    have hnp : (calculate_arbitrage_simple p q).profitable = false := by
      rw [hform]
      simp only [mkComputed, ArbResult.profitable, decide_eq_false_iff_not]
      exact not_le.mpr hpp
    rw [find_pair, if_neg (by rw [hnp]; simp)]

/-- Witness for C2: three concrete zero-fee pairs whose computed profits
are exactly the PROFITABLE threshold, exactly the OPTIMAL threshold, and
strictly below the PROFITABLE threshold. -/
theorem c2_threshold_boundary_witness :
    ((calculate_arbitrage_simple ⟨"A", 100000, 0⟩ ⟨"B", 100001, 0⟩).profitable = true ∧
      find_arbitrage_opportunities [⟨"A", 100000, 0⟩, ⟨"B", 100001, 0⟩] =
        [⟨⟨"A", 100000, 0⟩, ⟨"B", 100001, 0⟩,
          calculate_arbitrage_simple ⟨"A", 100000, 0⟩ ⟨"B", 100001, 0⟩⟩]) ∧
    ((calculate_arbitrage_simple ⟨"C", 100000, 0⟩ ⟨"D", 100010, 0⟩).optimal? =
      some true) ∧
    find_arbitrage_opportunities [⟨"E", 200000, 0⟩, ⟨"F", 200001, 0⟩] = [] :=
  ⟨(c2_threshold_boundary ⟨"A", 100000, 0⟩ ⟨"B", 100001, 0⟩ (by norm_num) (by norm_num)
      (by norm_num) (by norm_num) (by norm_num) (by norm_num)).1
      calc_eval_100000_100001,
    ((c2_threshold_boundary ⟨"C", 100000, 0⟩ ⟨"D", 100010, 0⟩ (by norm_num) (by norm_num)
      (by norm_num) (by norm_num) (by norm_num) (by norm_num)).2.1
      calc_eval_100000_100010).1,
    (c2_threshold_boundary ⟨"E", 200000, 0⟩ ⟨"F", 200001, 0⟩ (by norm_num) (by norm_num)
      (by norm_num) (by norm_num) (by norm_num) (by norm_num)).2.2
      calc_eval_200000_200001⟩

/-! ### Pair iteration order -/

theorem map_getD_range {α : Type} (l : List PoolQuote) (f : PoolQuote → α) :
    (List.range l.length).map (fun i => f (l.getD i dfltQuote)) = l.map f := by
  induction l with
  | nil => rfl
  | cons a l ih =>
    rw [List.length_cons, List.range_succ_eq_map, List.map_cons, List.map_map]
    simp only [Function.comp_def, Nat.succ_eq_add_one, List.getD_cons_succ,
      List.getD_cons_zero]
    rw [ih, List.map_cons]

theorem pairsList_eq_lexPairs (l : List PoolQuote) :
    pairsList l = (lexPairs l.length).map
      (fun ij => (l.getD ij.1 dfltQuote, l.getD ij.2 dfltQuote)) := by
  induction l with
  | nil => rfl
  | cons p l ih =>
    have hblock : (List.range' 1 l.length).map
        ((fun ij => ((p :: l).getD ij.1 dfltQuote, (p :: l).getD ij.2 dfltQuote)) ∘
          (fun j => (0, j))) = l.map (fun q => (p, q)) := by
      rw [List.range'_eq_map_range, List.map_map]
      have hm := map_getD_range l (fun q => (p, q))
      rw [← hm]
      apply List.map_congr_left
      intro i _
      simp only [Function.comp_def, List.getD_cons_zero, Nat.add_comm 1 i,
        List.getD_cons_succ]
    have hshift : (lexPairs l.length).map
        ((fun ij => ((p :: l).getD ij.1 dfltQuote, (p :: l).getD ij.2 dfltQuote)) ∘
          (fun q => (q.1 + 1, q.2 + 1))) =
        (lexPairs l.length).map
          (fun ij => (l.getD ij.1 dfltQuote, l.getD ij.2 dfltQuote)) := by
      apply List.map_congr_left
      intro ij _
      simp only [Function.comp_def, List.getD_cons_succ]
    rw [List.length_cons]
    show pairsList (p :: l) = (lexPairs (l.length + 1)).map _
    simp only [pairsList, lexPairs, List.map_append, List.map_map]
    rw [hblock, hshift, ih]

theorem filterMap_if_eq_filter_map {α β : Type} (p : α → Bool) (f : α → β)
    (l : List α) :
    l.filterMap (fun a => if p a then some (f a) else none) = (l.filter p).map f := by
  induction l with
  | nil => rfl
  | cons a l ih =>
    rw [List.filterMap_cons, List.filter_cons]
    by_cases h : p a
    · simp [h, ih]
    · simp [h, ih]

theorem lexPairs_sorted (n : ℕ) : (lexPairs n).Pairwise lexLt := by
  induction n with
  | zero => simp [lexPairs]
  | succ n ih =>
    simp only [lexPairs]
    rw [List.pairwise_append]
    refine ⟨?_, ?_, ?_⟩
    · exact List.Pairwise.map _ (fun a b hab => Or.inr ⟨rfl, hab⟩)
        (List.pairwise_lt_range' 1 n)
    · refine List.Pairwise.map _ (fun a b hab => ?_) ih
      rcases hab with h | ⟨h1, h2⟩
      · exact Or.inl (by omega)
      · exact Or.inr ⟨by omega, by omega⟩
    · intro a ha b hb
      simp only [List.mem_map] at ha hb
      obtain ⟨j, _, rfl⟩ := ha
      obtain ⟨ij, _, rfl⟩ := hb
      exact Or.inl (by omega)

theorem mkComputed_profitable_true {bp sp bf sf : ℚ} {d : String}
    (h : MIN_PROFIT_THRESHOLD ≤ profitPctOf bp sp bf sf) :
    (mkComputed bp sp bf sf d).profitable = true := by
  simp only [mkComputed, ArbResult.profitable]
  exact decide_eq_true h

theorem calc_eval_100_125 :
    profitPctOf (100 : ℚ) 125 0 0 = 1 / 4 := by
  rw [profitPctOf_zero_fee _ _
    (round18_eq_decimal 1 2 (by norm_num) (by norm_num))
    (round18_eq_decimal 125 0 (by norm_num) (by norm_num))
    (round18_eq_decimal 25 0 (by norm_num) (by norm_num))
    (round18_eq_decimal 25 (-2) (by norm_num) (by norm_num))]
  norm_num

theorem calc_eval_100_200 :
    profitPctOf (100 : ℚ) 200 0 0 = 1 := by
  rw [profitPctOf_zero_fee _ _
    (round18_eq_decimal 1 2 (by norm_num) (by norm_num))
    (round18_eq_decimal 2 2 (by norm_num) (by norm_num))
    (round18_eq_decimal 1 2 (by norm_num) (by norm_num))
    (round18_eq_decimal 1 0 (by norm_num) (by norm_num))]
  norm_num

theorem calc_eval_125_200 :
    profitPctOf (125 : ℚ) 200 0 0 = 3 / 5 := by
  rw [profitPctOf_zero_fee _ _
    (round18_eq_decimal 125 0 (by norm_num) (by norm_num))
    (round18_eq_decimal 2 2 (by norm_num) (by norm_num))
    (round18_eq_decimal 75 0 (by norm_num) (by norm_num))
    (round18_eq_decimal 6 (-1) (by norm_num) (by norm_num))]
  norm_num

/-- C6.  Result ordering: the returned sequence is exactly the filter of
the pair list taken in loop order, the loop order is lexicographic in the
index pairs (`i` ascending, then `j` ascending with `i < j`), and the
result is not sorted by profit magnitude: a concrete three-quote input
yields profits `[0.25, 1, 0.6]`, sorted in neither direction. -/
theorem c6_result_ordering :
    (∀ pools : List PoolQuote,
      find_arbitrage_opportunities pools =
        ((lexPairs pools.length).filter (fun ij =>
          (calculate_arbitrage_simple (pools.getD ij.1 dfltQuote)
            (pools.getD ij.2 dfltQuote)).profitable)).map (fun ij =>
          ⟨pools.getD ij.1 dfltQuote, pools.getD ij.2 dfltQuote,
            calculate_arbitrage_simple (pools.getD ij.1 dfltQuote)
              (pools.getD ij.2 dfltQuote)⟩)) ∧
    (∀ n, (lexPairs n).Pairwise lexLt) ∧
    ((find_arbitrage_opportunities
        [⟨"X", 100, 0⟩, ⟨"Y", 125, 0⟩, ⟨"Z", 200, 0⟩]).map
          (fun o => o.arbitrage.profit_pct) = [1 / 4, 1, 3 / 5] ∧
      ¬ ([1 / 4, 1, 3 / 5] : List ℚ).Pairwise (· ≥ ·) ∧
      ¬ ([1 / 4, 1, 3 / 5] : List ℚ).Pairwise (· ≤ ·)) := by
  refine ⟨?_, lexPairs_sorted, ?_, ?_, ?_⟩
  · intro pools
    unfold find_arbitrage_opportunities
    rw [pairsList_eq_lexPairs, List.filterMap_map]
    rw [← filterMap_if_eq_filter_map (fun ij =>
      (calculate_arbitrage_simple (pools.getD ij.1 dfltQuote)
        (pools.getD ij.2 dfltQuote)).profitable) (fun ij =>
      (⟨pools.getD ij.1 dfltQuote, pools.getD ij.2 dfltQuote,
        calculate_arbitrage_simple (pools.getD ij.1 dfltQuote)
          (pools.getD ij.2 dfltQuote)⟩ : Opportunity)) (lexPairs pools.length)]
    rfl
  · have hXY : calculate_arbitrage_simple ⟨"X", 100, 0⟩ ⟨"Y", 125, 0⟩ =
        mkComputed 100 125 0 0 "X -> Y" :=
      calc_lt (by norm_num : ¬((100 : ℚ) = 0 ∨ (125 : ℚ) = 0))
        (by norm_num : (100 : ℚ) < 125)
    have hXZ : calculate_arbitrage_simple ⟨"X", 100, 0⟩ ⟨"Z", 200, 0⟩ =
        mkComputed 100 200 0 0 "X -> Z" :=
      calc_lt (by norm_num : ¬((100 : ℚ) = 0 ∨ (200 : ℚ) = 0))
        (by norm_num : (100 : ℚ) < 200)
    have hYZ : calculate_arbitrage_simple ⟨"Y", 125, 0⟩ ⟨"Z", 200, 0⟩ =
        mkComputed 125 200 0 0 "Y -> Z" :=
      calc_lt (by norm_num : ¬((125 : ℚ) = 0 ∨ (200 : ℚ) = 0))
        (by norm_num : (125 : ℚ) < 200)
    have bXY : (calculate_arbitrage_simple ⟨"X", 100, 0⟩ ⟨"Y", 125, 0⟩).profitable
        = true := by
      rw [hXY]
      exact mkComputed_profitable_true
        (by rw [calc_eval_100_125, MIN_PROFIT_THRESHOLD]; norm_num)
    have bXZ : (calculate_arbitrage_simple ⟨"X", 100, 0⟩ ⟨"Z", 200, 0⟩).profitable
        = true := by
      rw [hXZ]
      exact mkComputed_profitable_true
        (by rw [calc_eval_100_200, MIN_PROFIT_THRESHOLD]; norm_num)
    have bYZ : (calculate_arbitrage_simple ⟨"Y", 125, 0⟩ ⟨"Z", 200, 0⟩).profitable
        = true := by
      rw [hYZ]
      exact mkComputed_profitable_true
        (by rw [calc_eval_125_200, MIN_PROFIT_THRESHOLD]; norm_num)
    have hfind : find_arbitrage_opportunities
        [⟨"X", 100, 0⟩, ⟨"Y", 125, 0⟩, ⟨"Z", 200, 0⟩] =
        [⟨⟨"X", 100, 0⟩, ⟨"Y", 125, 0⟩,
            calculate_arbitrage_simple ⟨"X", 100, 0⟩ ⟨"Y", 125, 0⟩⟩,
          ⟨⟨"X", 100, 0⟩, ⟨"Z", 200, 0⟩,
            calculate_arbitrage_simple ⟨"X", 100, 0⟩ ⟨"Z", 200, 0⟩⟩,
          ⟨⟨"Y", 125, 0⟩, ⟨"Z", 200, 0⟩,
            calculate_arbitrage_simple ⟨"Y", 125, 0⟩ ⟨"Z", 200, 0⟩⟩] := by
      unfold find_arbitrage_opportunities
      rw [show pairsList [⟨"X", 100, 0⟩, ⟨"Y", 125, 0⟩, ⟨"Z", 200, 0⟩] =
        [(⟨"X", 100, 0⟩, ⟨"Y", 125, 0⟩), (⟨"X", 100, 0⟩, ⟨"Z", 200, 0⟩),
          (⟨"Y", 125, 0⟩, ⟨"Z", 200, 0⟩)] by simp [pairsList]]
      simp only [List.filterMap_cons, List.filterMap_nil, bXY, bXZ, bYZ, if_true]
    rw [hfind]
    simp only [List.map_cons, List.map_nil]
    rw [hXY, hXZ, hYZ]
    simp only [mkComputed, ArbResult.profit_pct]
    rw [calc_eval_100_125, calc_eval_100_200, calc_eval_125_200]
  · intro h
    rw [List.pairwise_cons] at h
    have := h.1 1 (by simp)
    norm_num at this
  · intro h
    rw [List.pairwise_cons] at h
    have h2 := h.2
    rw [List.pairwise_cons] at h2
    have := h2.1 (3 / 5) (by simp)
    norm_num at this

/-- Witness for C3: a concrete profitable two-quote scan in which the
emitted opportunity's two prices are both nonzero. -/
theorem c3_zero_price_exclusion_witness :
    (⟨⟨"G", 300, 0⟩, ⟨"H", 375, 0⟩,
        calculate_arbitrage_simple ⟨"G", 300, 0⟩ ⟨"H", 375, 0⟩⟩ : Opportunity) ∈
      find_arbitrage_opportunities [⟨"G", 300, 0⟩, ⟨"H", 375, 0⟩] ∧
    (⟨"G", 300, 0⟩ : PoolQuote).price ≠ 0 ∧
    (⟨"H", 375, 0⟩ : PoolQuote).price ≠ 0 := by
  have hb : (calculate_arbitrage_simple ⟨"G", 300, 0⟩ ⟨"H", 375, 0⟩).profitable
      = true := by
    rw [calc_lt (p := ⟨"G", 300, 0⟩) (q := ⟨"H", 375, 0⟩)
      (by norm_num : ¬((300 : ℚ) = 0 ∨ (375 : ℚ) = 0))
      (by norm_num : (300 : ℚ) < 375)]
    apply mkComputed_profitable_true
    rw [show profitPctOf ((⟨"G", 300, 0⟩ : PoolQuote).price)
        ((⟨"H", 375, 0⟩ : PoolQuote).price)
        ((⟨"G", 300, 0⟩ : PoolQuote).fee_rate)
        ((⟨"H", 375, 0⟩ : PoolQuote).fee_rate) =
      profitPctOf (300 : ℚ) 375 0 0 from rfl]
    rw [profitPctOf_zero_fee _ _
      (round18_eq_decimal 3 2 (by norm_num) (by norm_num))
      (round18_eq_decimal 375 0 (by norm_num) (by norm_num))
      (round18_eq_decimal 75 0 (by norm_num) (by norm_num))
      (round18_eq_decimal 25 (-2) (by norm_num) (by norm_num))]
    rw [MIN_PROFIT_THRESHOLD]
    norm_num
  have hmem : (⟨⟨"G", 300, 0⟩, ⟨"H", 375, 0⟩,
      calculate_arbitrage_simple ⟨"G", 300, 0⟩ ⟨"H", 375, 0⟩⟩ : Opportunity) ∈
      find_arbitrage_opportunities [⟨"G", 300, 0⟩, ⟨"H", 375, 0⟩] := by
    rw [find_pair, if_pos hb]
    exact List.mem_singleton.mpr rfl
  have h := c3_zero_price_exclusion [⟨"G", 300, 0⟩, ⟨"H", 375, 0⟩] _ hmem
  exact ⟨hmem, h.1, h.2⟩

/-- Witness for C4: a concrete well-formed two-quote scan with distinct
prices, whose emitted opportunity is oriented low-price-buy,
high-price-sell. -/
theorem c4_tie_and_orientation_witness :
    (∀ q ∈ [(⟨"W1", 50000, 0⟩ : PoolQuote), ⟨"W2", 50002, 0⟩],
      0 ≤ q.fee_rate ∧ q.fee_rate < 1) ∧
    (⟨⟨"W1", 50000, 0⟩, ⟨"W2", 50002, 0⟩,
        calculate_arbitrage_simple ⟨"W1", 50000, 0⟩ ⟨"W2", 50002, 0⟩⟩ :
      Opportunity) ∈
      find_arbitrage_opportunities [⟨"W1", 50000, 0⟩, ⟨"W2", 50002, 0⟩] ∧
    (50000 : ℚ) ≠ 50002 ∧
    (calculate_arbitrage_simple ⟨"W1", 50000, 0⟩ ⟨"W2", 50002, 0⟩).buyPrice? =
      some (min (50000 : ℚ) 50002) ∧
    (calculate_arbitrage_simple ⟨"W1", 50000, 0⟩ ⟨"W2", 50002, 0⟩).sellPrice? =
      some (max (50000 : ℚ) 50002) ∧
    min (50000 : ℚ) 50002 < max (50000 : ℚ) 50002 := by
  have hfees : ∀ q ∈ [(⟨"W1", 50000, 0⟩ : PoolQuote), ⟨"W2", 50002, 0⟩],
      0 ≤ q.fee_rate ∧ q.fee_rate < 1 := by
    intro q hq
    rcases List.mem_cons.mp hq with rfl | hq
    · exact ⟨le_refl 0, zero_lt_one⟩
    rcases List.mem_cons.mp hq with rfl | hq
    · exact ⟨le_refl 0, zero_lt_one⟩
    · simp at hq
  have hb : (calculate_arbitrage_simple ⟨"W1", 50000, 0⟩ ⟨"W2", 50002, 0⟩).profitable
      = true := by
    rw [calc_lt (p := ⟨"W1", 50000, 0⟩) (q := ⟨"W2", 50002, 0⟩)
      (by norm_num : ¬((50000 : ℚ) = 0 ∨ (50002 : ℚ) = 0))
      (by norm_num : (50000 : ℚ) < 50002)]
    apply mkComputed_profitable_true
    rw [show profitPctOf ((⟨"W1", 50000, 0⟩ : PoolQuote).price)
        ((⟨"W2", 50002, 0⟩ : PoolQuote).price)
        ((⟨"W1", 50000, 0⟩ : PoolQuote).fee_rate)
        ((⟨"W2", 50002, 0⟩ : PoolQuote).fee_rate) =
      profitPctOf (50000 : ℚ) 50002 0 0 from rfl]
    rw [profitPctOf_zero_fee _ _
      (round18_eq_decimal 5 4 (by norm_num) (by norm_num))
      (round18_eq_decimal 50002 0 (by norm_num) (by norm_num))
      (round18_eq_decimal 2 0 (by norm_num) (by norm_num))
      (round18_eq_decimal 4 (-5) (by norm_num) (by norm_num))]
    rw [MIN_PROFIT_THRESHOLD]
    norm_num
  have hmem : (⟨⟨"W1", 50000, 0⟩, ⟨"W2", 50002, 0⟩,
      calculate_arbitrage_simple ⟨"W1", 50000, 0⟩ ⟨"W2", 50002, 0⟩⟩ :
      Opportunity) ∈
      find_arbitrage_opportunities [⟨"W1", 50000, 0⟩, ⟨"W2", 50002, 0⟩] := by
    rw [find_pair, if_pos hb]
    exact List.mem_singleton.mpr rfl
  have h := c4_tie_and_orientation [⟨"W1", 50000, 0⟩, ⟨"W2", 50002, 0⟩] hfees _ hmem
  exact ⟨hfees, hmem, h.1, h.2.1, h.2.2.1, h.2.2.2⟩

/-! ### Price normalizer claims -/

theorem log10_unique {q : ℚ} (hq : 0 < q) (e : ℤ) (h1 : (10 : ℚ) ^ e ≤ q)
    (h2 : q < (10 : ℚ) ^ (e + 1)) : Int.log 10 q = e := by
  have hl1 := log10_lb hq
  have hl2 := log10_ub q
  by_contra hne
  rcases lt_or_gt_of_ne hne with hlt | hgt
  · have : (10 : ℚ) ^ (Int.log 10 q + 1) ≤ 10 ^ e :=
      zpow_le_zpow_right₀ (by norm_num) (by omega)
    linarith
  · have : (10 : ℚ) ^ (e + 1) ≤ 10 ^ Int.log 10 q :=
      zpow_le_zpow_right₀ (by norm_num) (by omega)
    linarith

/-- The final `* 10^9 / 10^6` scaling of the price normalizer is exact
(both operands only shift the decimal exponent of an already-rounded
value), so the normalizer reduces to the division and squaring steps
scaled by 1000. -/
theorem sqrt_price_to_price_eq (s : ℕ) :
    sqrt_price_to_price s = round18 (round18 ((s : ℚ) / 2 ^ 64) ^ 2) * 1000 := by
  show round18 (round18 (round18 (round18 ((s : ℚ) / 2 ^ 64) ^ 2) * 10 ^ 9) /
    10 ^ 6) = _
  have h9 : round18 (round18 (round18 ((s : ℚ) / 2 ^ 64) ^ 2) * 10 ^ 9) =
      round18 (round18 ((s : ℚ) / 2 ^ 64) ^ 2) * 10 ^ 9 := by
    have h := round18_mul_zpow (round18 ((s : ℚ) / 2 ^ 64) ^ 2) 9
    rw [show ((10 : ℚ) ^ (9 : ℤ)) = (10 : ℚ) ^ (9 : ℕ) from by norm_num] at h
    exact h
  have h3 : round18 (round18 (round18 ((s : ℚ) / 2 ^ 64) ^ 2) * 10 ^ 3) =
      round18 (round18 ((s : ℚ) / 2 ^ 64) ^ 2) * 10 ^ 3 := by
    have h := round18_mul_zpow (round18 ((s : ℚ) / 2 ^ 64) ^ 2) 3
    rw [show ((10 : ℚ) ^ (3 : ℤ)) = (10 : ℚ) ^ (3 : ℕ) from by norm_num] at h
    exact h
  rw [h9, show round18 (round18 ((s : ℚ) / 2 ^ 64) ^ 2) * 10 ^ 9 / 10 ^ 6 =
    round18 (round18 ((s : ℚ) / 2 ^ 64) ^ 2) * 10 ^ 3 from by ring, h3]
  norm_num

/-- The prec-18 rounding of `(2^64 + 1) / 2^64` is exactly 1: the true
quotient `1.00000000000000000005421...` needs 20 significant digits, and
the excess is far below half an ulp. -/
theorem round18_q64succ : round18 (((2 ^ 64 + 1 : ℕ) : ℚ) / 2 ^ 64) = 1 := by
  have hcast : ((2 ^ 64 + 1 : ℕ) : ℚ) = 2 ^ 64 + 1 := by push_cast; ring
  rw [hcast]
  have hqpos : (0 : ℚ) < (2 ^ 64 + 1) / 2 ^ 64 := by positivity
  have he : Int.log 10 (((2 : ℚ) ^ 64 + 1) / 2 ^ 64) = 0 := by
    apply log10_unique hqpos
    · rw [zpow_zero, le_div_iff₀ (by positivity : (0 : ℚ) < 2 ^ 64)]
      norm_num
    · rw [zero_add, zpow_one, div_lt_iff₀ (by positivity : (0 : ℚ) < 2 ^ 64)]
      norm_num
  rw [round18_of_pos hqpos]
  unfold round18pos
  rw [he]
  have hx : ((2 : ℚ) ^ 64 + 1) / 2 ^ 64 * 10 ^ ((17 : ℤ) - 0) =
      ((2 : ℚ) ^ 64 + 1) * 10 ^ 17 / 2 ^ 64 := by
    rw [show ((17 : ℤ) - 0) = ((17 : ℕ) : ℤ) from by norm_num, zpow_natCast]
    ring
  rw [hx]
  have hfl : ⌊((2 : ℚ) ^ 64 + 1) * 10 ^ 17 / 2 ^ 64⌋ = 10 ^ 17 := by
    rw [Int.floor_eq_iff]
    constructor
    · push_cast
      rw [le_div_iff₀ (by positivity : (0 : ℚ) < 2 ^ 64)]
      norm_num
    · push_cast
      rw [div_lt_iff₀ (by positivity : (0 : ℚ) < 2 ^ 64)]
      norm_num
  have hfr : Int.fract (((2 : ℚ) ^ 64 + 1) * 10 ^ 17 / 2 ^ 64) < 1 / 2 := by
    simp only [Int.fract]
    rw [hfl, sub_lt_iff_lt_add, div_lt_iff₀ (by positivity : (0 : ℚ) < 2 ^ 64)]
    push_cast
    norm_num
  unfold roundHalfEvenQ
  rw [if_pos hfr, hfl]
  push_cast
  norm_num

theorem toPrice_q64succ : sqrt_price_to_price (2 ^ 64 + 1) = 1000 := by
  rw [sqrt_price_to_price_eq, round18_q64succ, one_pow, round18_one]
  norm_num

theorem toPrice_q64 : sqrt_price_to_price (2 ^ 64) = 1000 := by
  rw [sqrt_price_to_price_eq,
    show (((2 ^ 64 : ℕ) : ℚ) / 2 ^ 64) = 1 from by push_cast; norm_num,
    round18_one, one_pow, round18_one]
  norm_num

/-- C7 (amended).  Price normalization under the prec-18 context:
`sqrt_price_to_price s` equals `round18(round18(s / 2^64)^2) * 1000` —
the `* 10^9` and `/ 10^6` scalings are exact, while the division and the
squaring each round to 18 significant digits, so the result is not the
exact rational `s^2 * 1000 / 2^128` in general. -/
theorem c7_price_normalization : ∀ s : ℕ,
    sqrt_price_to_price s = round18 (round18 ((s : ℚ) / 2 ^ 64) ^ 2) * 1000 :=
  sqrt_price_to_price_eq

/-- Counterexample to C7 as stated: at `s = 2^64 + 1` the code yields
exactly 1000, but the exact rational value `s^2 * 1000 / 2^128` is
strictly larger. -/
theorem c7_price_normalization_counterexample :
    sqrt_price_to_price (2 ^ 64 + 1) = 1000 ∧
    ¬ sqrt_price_to_price (2 ^ 64 + 1) =
        ((2 ^ 64 + 1 : ℕ) : ℚ) ^ 2 * 1000 / 2 ^ 128 := by
  refine ⟨toPrice_q64succ, ?_⟩
  rw [toPrice_q64succ]
  push_cast
  intro hc
  rw [eq_div_iff (by positivity : ((2 : ℚ) ^ 128) ≠ 0)] at hc
  norm_num at hc

/-- C8 (amended).  For the fixed scale factor the normalizer is monotone
non-decreasing in the sqrt price, and maps 0 to 0; it is not strictly
increasing (see the counterexample). -/
theorem c8_price_monotonicity :
    (∀ s1 s2 : ℕ, s1 ≤ s2 → sqrt_price_to_price s1 ≤ sqrt_price_to_price s2) ∧
    sqrt_price_to_price 0 = 0 := by
  constructor
  · intro s1 s2 h
    rw [sqrt_price_to_price_eq, sqrt_price_to_price_eq]
    apply mul_le_mul_of_nonneg_right _ (by norm_num : (0 : ℚ) ≤ 1000)
    apply round18_mono
    have h1 : (0 : ℚ) ≤ round18 ((s1 : ℚ) / 2 ^ 64) := round18_nonneg (by positivity)
    have h2 : round18 ((s1 : ℚ) / 2 ^ 64) ≤ round18 ((s2 : ℚ) / 2 ^ 64) :=
      round18_mono (div_le_div_of_nonneg_right (Nat.cast_le.mpr h) (by norm_num))
    exact pow_le_pow_left₀ h1 h2 2
  · rw [sqrt_price_to_price_eq,
      show (((0 : ℕ) : ℚ) / 2 ^ 64) = 0 from by norm_num, round18_zero,
      show ((0 : ℚ) ^ 2) = 0 from by norm_num, round18_zero]
    norm_num

/-- Witness for the monotonicity part of C8 at concrete inputs. -/
theorem c8_price_monotonicity_witness :
    (3 : ℕ) ≤ 5 ∧ sqrt_price_to_price 3 ≤ sqrt_price_to_price 5 :=
  ⟨by norm_num, c8_price_monotonicity.1 3 5 (by norm_num)⟩

/-- Counterexample to C8 as stated: the normalizer is not strictly
increasing — `2^64` and `2^64 + 1` both map to exactly 1000. -/
theorem c8_price_monotonicity_counterexample :
    (2 ^ 64 : ℕ) < 2 ^ 64 + 1 ∧
    ¬ sqrt_price_to_price (2 ^ 64) < sqrt_price_to_price (2 ^ 64 + 1) := by
  refine ⟨by norm_num, ?_⟩
  rw [toPrice_q64, toPrice_q64succ]
  exact lt_irrefl _

end SkyO2O
